import Mathlib

/-!
Shallow embedding of the hierarchical geocoder core (`geocoder/geocoder.cpp`)
and proofs of the specification claims about it.

The embedding translates the source file `geocoder/geocoder.cpp`:
* `geocoder::Type` (a C++ enum; `Type` is reserved in Lean, so it is named
  `GeoType` here), `GetWeight`, `NextType`, `MakeHouseNumber`;
* `Geocoder::Context` (tokens, token types, used-token counter, layers, beam,
  house-number positions) with `MarkToken`, `IsTokenUsed`, `AllTokensUsed`,
  `AddResult`, `FillResults`, `IsGoodForPotentialHouseNumberAt`,
  `IsBuildingWithAddress`, `HasLocalityOrRegion`, `ContainsTokenIds`;
* `ScopedMarkTokens` (constructor = `markRange` with the marked type,
  destructor = `markRange` with `Count` over the same range);
* `Geocoder::Go`, `FillBuildingsLayer`, `FillRegularLayer`, `HasParent`,
  `ProcessQuery`.

The token list of a query is immutable after construction of the context, so
it is passed as a separate parameter instead of being stored in the mutable
state record.  C++ `double` certainty arithmetic is modelled over `ℚ`; all
weights and the final normalization are exact in both models.

Collaborators of the core that are not part of the given sources (`Beam`,
`Index`, `Hierarchy`, and the text helpers `NormalizeAndTokenizeAsUtf8`,
`IsStreetSynonym`, `LooksLikeHouseNumber`, `HouseNumbersMatch`) are modelled
from the specification; each such definition carries a doc comment saying so.
The text helpers are uninterpreted parameters bundled in the environment
record `Geo`.

The recursion of `Go` advances the type level by one on every nested call and
stops at the sentinel `Count`, so its depth from `Country` is at most 9;
`go` takes an explicit fuel argument and `processQuery` supplies fuel 9,
which is never exhausted.  Similarly the inner `j` loop of `Go` runs at most
`numTokens - i` times and `goJ` carries the corresponding countdown.
-/

/-- The `geocoder::Type` enum: coarse-to-fine levels plus the `Count`
sentinel, which also means "unassigned" for a token. -/
inductive GeoType where
  | Country
  | Region
  | Subregion
  | Locality
  | Suburb
  | Sublocality
  | Street
  | Building
  | Count
deriving DecidableEq, Repr

/-- Kernel-computable rational addition (`Rat.add` is `@[irreducible]`);
`qAdd_eq_add` below shows it is ordinary addition on ℚ. -/
def qAdd (a b : ℚ) : ℚ := mkRat (a.num * b.den + b.num * a.den) (a.den * b.den)

/-- Kernel-computable rational division; `qDiv_eq_div` below shows it is
ordinary division on ℚ. -/
def qDiv (a b : ℚ) : ℚ := Rat.divInt (a.num * b.den) (a.den * b.num)

/-- `GetWeight` from `geocoder.cpp` (the `double` constants are exact in ℚ;
`mkRat 1 10` is `1 / 10`, written so that the kernel can evaluate it). -/
def getWeight : GeoType → ℚ
  | .Country => 10
  | .Region => 5
  | .Subregion => 4
  | .Locality => 3
  | .Suburb => 3
  | .Sublocality => 2
  | .Street => 1
  | .Building => mkRat 1 10
  | .Count => 0

/-- `NextType` from `geocoder.cpp`: advance the ordinal by one.  The source
has `CHECK_NOT_EQUAL(type, Type::Count, ())`; the total model maps `Count` to
itself, and the checked interpreter `nextTypeC` models the assertion. -/
def nextType : GeoType → GeoType
  | .Country => .Region
  | .Region => .Subregion
  | .Subregion => .Locality
  | .Locality => .Suburb
  | .Suburb => .Sublocality
  | .Sublocality => .Street
  | .Street => .Building
  | .Building => .Count
  | .Count => .Count

/-- Modelled from the spec: a `Hierarchy.Entry` (hierarchy.hpp is not among
the sources).  An entry has an object id, a type, normalized name tokens, a
main normalized name for the Building type (its house number), and the
ordered ancestor id chain. -/
structure Entry where
  osmId : Nat
  type : GeoType
  nameTokens : List String
  houseNumber : String
  ancestors : List Nat
deriving DecidableEq, Repr

instance : Inhabited Entry := ⟨⟨0, .Count, [], "", []⟩⟩

/-- The environment of one geocoder instance: the loaded documents (DocId =
position in the list, as the spec's dense 0-based `Index.DocId`) and the
external text helpers, which are uninterpreted functions with the contracts
of spec §6. -/
structure Geo where
  docs : List Entry
  isStreetSynonym : String → Bool
  looksLikeHouseNumber : String → Bool → Bool
  houseNumbersMatch : String → String → Bool → Bool
  tokenize : String → List String

/-- `Index::GetDoc` — O(1) lookup by DocId. -/
def getDoc (g : Geo) (docId : Nat) : Entry := g.docs.getD docId default

/-- Modelled from the spec: `Hierarchy::IsParentTo(a, b)` is true iff `a.id`
appears in `b.ancestors` (spec §4.1; hierarchy.cpp is not among the
sources). -/
def isParentTo (g : Geo) (a b : Entry) : Bool := b.ancestors.contains a.osmId

/-- Modelled from the spec: the containment predicate of
`Index::ForEachDocId` — an entry matches a subquery iff its name tokens
contain every query token (spec §4.2; index.cpp is not among the sources). -/
def docMatches (subquery : List String) (e : Entry) : Bool :=
  subquery.all fun t => e.nameTokens.contains t

/-- Modelled from the spec: `Index::ForEachRelatedBuilding` — the
Street→Buildings map lists, per Street DocId `d`, every Building DocId whose
entry's ancestors include the street's id (spec §4.2). -/
def relatedBuildings (g : Geo) (docId : Nat) : List Nat :=
  if (getDoc g docId).type = .Street then
    (List.range g.docs.length).filter fun b =>
      (getDoc g b).type = .Building ∧ (getDoc g b).ancestors.contains (getDoc g docId).osmId
  else []

/-- `MakeHouseNumber` from `geocoder.cpp`: space-join the subquery tokens. -/
def makeHouseNumber (tokens : List String) : String := String.intercalate " " tokens

/-- `Geocoder::Context::BeamKey`. -/
structure BeamKey where
  osmId : Nat
  type : GeoType
  tokenIds : List Nat
  allTypes : List GeoType
deriving DecidableEq, Repr

/-- One retained beam entry: key plus certainty. -/
structure BeamEntry where
  key : BeamKey
  value : ℚ
deriving DecidableEq, Repr

/-- `Result` from `geocoder.cpp`: object id plus certainty. -/
structure Result where
  osmId : Nat
  certainty : ℚ
deriving DecidableEq, Repr

/-- `kMaxResults` from `geocoder.cpp`. -/
def kMaxResults : Nat := 100

/-- Modelled from the spec: insertion into the descending-score beam list;
an entry is placed before the first strictly smaller score, so an equal
score keeps the earlier insertion first (spec §4.3 tie-break). -/
def insertDesc : List BeamEntry → BeamEntry → List BeamEntry
  | [], e => [e]
  | x :: xs, e => if x.value < e.value then e :: x :: xs else x :: insertDesc xs e

/-- Modelled from the spec: `Beam::Add` (beam.hpp is not among the sources).
If fewer than K entries are retained, insert; otherwise, if the score
exceeds the current minimum (the last entry of the descending list), evict
the minimum and insert; otherwise drop the new entry (spec §4.3). -/
def beamAdd (b : List BeamEntry) (key : BeamKey) (value : ℚ) : List BeamEntry :=
  if b.length < kMaxResults then insertDesc b ⟨key, value⟩
  else if (b.getLastD ⟨key, value⟩).value < value then insertDesc b.dropLast ⟨key, value⟩
  else b

/-- `Geocoder::Layer`. -/
structure Layer where
  type : GeoType
  entries : List Nat
deriving DecidableEq, Repr

/-- The mutable part of `Geocoder::Context` (the immutable token list is a
separate parameter everywhere). -/
structure Ctx where
  tokenTypes : List GeoType
  numUsedTokens : Nat
  layers : List Layer
  beam : List BeamEntry
  houseNumberPositionsInQuery : List Nat
deriving DecidableEq, Repr

/-- `Context::Context(query)` after tokenization: all token types `Count`,
counter zero, empty layers, empty beam, empty house-number set. -/
def initCtx (tokens : List String) : Ctx :=
  ⟨List.replicate tokens.length .Count, 0, [], [], []⟩

/-- `Context::MarkToken` from `geocoder.cpp`: set the type of one position
and keep `numUsedTokens` consistent. -/
def markToken (ctx : Ctx) (id : Nat) (t : GeoType) : Ctx :=
  let wasUsed := ctx.tokenTypes.getD id .Count ≠ .Count
  let tokenTypes := ctx.tokenTypes.set id t
  let nowUsed := t ≠ .Count
  let n := ctx.numUsedTokens
  let n := if wasUsed ∧ ¬nowUsed then n - 1 else n
  let n := if ¬wasUsed ∧ nowUsed then n + 1 else n
  { ctx with tokenTypes := tokenTypes, numUsedTokens := n }

/-- `Context::IsTokenUsed`. -/
def isTokenUsed (ctx : Ctx) (id : Nat) : Bool := ctx.tokenTypes.getD id .Count ≠ .Count

/-- `Context::AllTokensUsed`: `m_numUsedTokens == m_tokens.size()`. -/
def allTokensUsed (tokens : List String) (ctx : Ctx) : Bool :=
  ctx.numUsedTokens = tokens.length

/-- The marking loop shared by the `ScopedMarkTokens` constructor (with the
scope's type) and destructor (with `Count`): `MarkToken` on every position of
`[l, r)`. -/
def markRange (ctx : Ctx) (t : GeoType) (l r : Nat) : Ctx :=
  (List.range' l (r - l)).foldl (fun c k => markToken c k t) ctx

/-- `Context::MarkHouseNumberPositionsInQuery`: insert the token ids into the
ordered set (modelled as a sorted duplicate-free list, as `std::set`). -/
def setInsert : List Nat → Nat → List Nat
  | [], x => [x]
  | y :: ys, x => if x < y then x :: y :: ys else if x = y then y :: ys else y :: setInsert ys x

/-- `Context::MarkHouseNumberPositionsInQuery` from `geocoder.cpp`. -/
def markHouseNumberPositionsInQuery (ctx : Ctx) (tokenIds : List Nat) : Ctx :=
  { ctx with houseNumberPositionsInQuery := tokenIds.foldl setInsert ctx.houseNumberPositionsInQuery }

/-- The values produced by the scoring loop of `Geocoder::Go` (lines
320–338): accumulated certainty, collected token ids and types, the context
after the possible street-synonym mark, and the marked position if any. -/
structure ScanResult where
  certainty : ℚ
  tokenIds : List Nat
  allTypes : List GeoType
  ctx : Ctx
  syn : Option Nat
deriving Repr

/-- The scoring loop of `Geocoder::Go` over a list of token positions.  Per
position: read the current type `t`; if the level is `Street`, `t` is
`Count`, no synonym was marked yet in this frame and the token is a street
synonym, scope-mark `[tokId, tokId+1)` as `Street` (this happens after `t`
was read); then accumulate `getWeight t` and, when `t ≠ Count`, collect the
position and type. -/
def goScanAux (g : Geo) (tokens : List String) (type : GeoType) :
    List Nat → Ctx → Option Nat → ℚ → List Nat → List GeoType → ScanResult
  | [], ctx, syn, cert, ids, tys => ⟨cert, ids, tys, ctx, syn⟩
  | tokId :: rest, ctx, syn, cert, ids, tys =>
    let t := ctx.tokenTypes.getD tokId .Count
    let step : Ctx × Option Nat :=
      if type = .Street ∧ t = .Count ∧ syn = none ∧ g.isStreetSynonym (tokens.getD tokId "") then
        (markRange ctx .Street tokId (tokId + 1), some tokId)
      else (ctx, syn)
    let collected : List Nat × List GeoType :=
      if t ≠ .Count then (ids ++ [tokId], tys ++ [t]) else (ids, tys)
    goScanAux g tokens type rest step.1 step.2 (qAdd cert (getWeight t)) collected.1 collected.2

/-- The scoring loop of `Geocoder::Go`, over all token positions. -/
def goScan (g : Geo) (tokens : List String) (type : GeoType) (ctx : Ctx) : ScanResult :=
  goScanAux g tokens type (List.range tokens.length) ctx none 0 [] []

/-- `Context::AddResult`: insert a beam key snapshot with the certainty. -/
def addResult (ctx : Ctx) (osmId : Nat) (certainty : ℚ) (type : GeoType)
    (tokenIds : List Nat) (allTypes : List GeoType) : Ctx :=
  { ctx with beam := beamAdd ctx.beam ⟨osmId, type, tokenIds, allTypes⟩ certainty }

/-- `Geocoder::HasParent`: some entry of the top layer is a parent of `e`.
The source has `CHECK(!layers.empty())` and reads `layers.back()`. -/
def hasParent (g : Geo) (layers : List Layer) (e : Entry) : Bool :=
  match layers.getLast? with
  | none => false
  | some top => top.entries.any fun d => isParentTo g (getDoc g d) e

/-- `Geocoder::FillRegularLayer`: visit every DocId whose entry contains all
subquery tokens; keep it iff its type is the current level and the layer
stack is empty or the top layer has a parent of it. -/
def fillRegularLayer (g : Geo) (layers : List Layer) (type : GeoType)
    (subquery : List String) : List Nat :=
  (List.range g.docs.length).filter fun d =>
    docMatches subquery (getDoc g d) ∧ (getDoc g d).type = type ∧
      (layers.isEmpty ∨ hasParent g layers (getDoc g d))

/-- One step of the layer-stack walk of `Geocoder::FillBuildingsLayer`: skip
layers that are neither Street nor Locality; otherwise mark the subquery
positions as potential house-number positions and collect every related
building whose house number matches the joined subquery. -/
def fbStep (g : Geo) (subqueryHN : String) (subqueryTokenIds : List Nat)
    (acc : List Nat × Ctx) (layer : Layer) : List Nat × Ctx :=
  if layer.type ≠ .Street ∧ layer.type ≠ .Locality then acc
  else
    let ctx2 := markHouseNumberPositionsInQuery acc.2 subqueryTokenIds
    let ents := layer.entries.foldl
      (fun es docId =>
        es ++ (relatedBuildings g docId).filter
          (fun b => g.houseNumbersMatch (getDoc g b).houseNumber subqueryHN false))
      acc.1
    (ents, ctx2)

/-- `Geocoder::FillBuildingsLayer`: nothing if the layer stack is empty or
the joined subquery does not look like a house number; otherwise walk the
layer stack from top to bottom (`rbegin` to `rend`). -/
def fillBuildingsLayer (g : Geo) (ctx : Ctx) (subquery : List String)
    (subqueryTokenIds : List Nat) : List Nat × Ctx :=
  if ctx.layers.isEmpty then ([], ctx)
  else if ¬g.looksLikeHouseNumber (makeHouseNumber subquery) false then ([], ctx)
  else ctx.layers.reverse.foldl (fbStep g (makeHouseNumber subquery) subqueryTokenIds) ([], ctx)

/-- The part of the non-empty-layer body after the scoring loop: record every
layer entry into the beam, push the layer, recurse to the next level, pop the
layer again, and run the destructor of the street-synonym mark if one was
placed. -/
def goJ2 (g : Geo) (tokens : List String) (recur : Ctx → GeoType → Ctx)
    (type : GeoType) (entries : List Nat) (scanned : ScanResult) : Ctx :=
  let ctx2 := entries.foldl
    (fun c docId =>
      addResult c (getDoc g docId).osmId scanned.certainty type
        scanned.tokenIds scanned.allTypes)
    scanned.ctx
  let ctx3 := { ctx2 with layers := ctx2.layers ++ [⟨type, entries⟩] }
  let ctx4 := recur ctx3 (nextType type)
  let ctx5 := { ctx4 with layers := ctx4.layers.dropLast }
  match scanned.syn with
  | none => ctx5
  | some p => markRange ctx5 .Count p (p + 1)

/-- The non-empty-layer body of the inner loop of `Geocoder::Go`: scope-mark
`[i, j+1)` with the level's type, run the scoring loop (which may add the
street-synonym mark), run `goJ2`, and finally unwind the range mark (the
`ScopedMarkTokens` destructor, which runs after the synonym mark's). -/
def goJcore (g : Geo) (tokens : List String) (recur : Ctx → GeoType → Ctx)
    (type : GeoType) (i j : Nat) (filled : List Nat × Ctx) : Ctx :=
  markRange
    (goJ2 g tokens recur type filled.1
      (goScan g tokens type (markRange filled.2 type i (j + 1))))
    .Count i (j + 1)

/-- The inner `j` loop of `Geocoder::Go` for a fixed start `i`: extend the
subquery (`tokens[i..j]`) while the token is unused (break at the first used
token), fill the layer for the level, and on a non-empty layer run
`goJcore`.  The countdown `k` only bounds the loop; `go` passes
`tokens.length - i`, which is never exhausted. -/
def goJ (g : Geo) (tokens : List String) (recur : Ctx → GeoType → Ctx) (type : GeoType)
    (i : Nat) : Nat → Nat → Ctx → Ctx
  | 0, _, ctx => ctx
  | k + 1, j, ctx =>
    if j < tokens.length then
      if isTokenUsed ctx j then ctx
      else
        let filled : List Nat × Ctx :=
          if type = .Building then
            fillBuildingsLayer g ctx ((tokens.drop i).take (j + 1 - i)) (List.range' i (j + 1 - i))
          else (fillRegularLayer g ctx.layers type ((tokens.drop i).take (j + 1 - i)), ctx)
        if filled.1.isEmpty then goJ g tokens recur type i k (j + 1) filled.2
        else goJ g tokens recur type i k (j + 1) (goJcore g tokens recur type i j filled)
    else ctx

/-- `Geocoder::Go`.  The guards return the context unchanged; otherwise run
the double loop over subqueries at this level and finally recurse once to the
next level to allow skipping this level entirely.  The fuel only bounds the
level recursion; `processQuery` passes fuel 9, which is never exhausted
because the type ordinal strictly increases towards `Count`. -/
def go (g : Geo) (tokens : List String) : Nat → Ctx → GeoType → Ctx
  | 0, ctx, _ => ctx
  | fuel + 1, ctx, type =>
    if tokens.length = 0 then ctx
    else if allTokensUsed tokens ctx then ctx
    else if type = .Count then ctx
    else
      let ctx' := (List.range tokens.length).foldl
        (fun c i => goJ g tokens (fun c2 t2 => go g tokens fuel c2 t2) type i
          (tokens.length - i) i c)
        ctx
      go g tokens fuel ctx' (nextType type)

/-- `base::Includes` (`std::includes` over sorted ranges), used by
`Context::ContainsTokenIds`: every element of the second sorted range occurs
in the first sorted range. -/
def includes : List Nat → List Nat → Bool
  | _, [] => true
  | [], _ :: _ => false
  | x :: xs, y :: ys =>
    if y < x then false
    else if x < y then includes xs (y :: ys)
    else includes xs ys

/-- `Context::IsBuildingWithAddress`: the key is a Building and its types
contain a Region/Subregion/Locality, a Street and a Building. -/
def isBuildingWithAddress (key : BeamKey) : Bool :=
  key.type = GeoType.Building ∧
    (key.allTypes.any fun t => t = .Region ∨ t = .Subregion ∨ t = .Locality) ∧
    key.allTypes.contains .Street ∧ key.allTypes.contains .Building

/-- `Context::HasLocalityOrRegion`. -/
def hasLocalityOrRegion (key : BeamKey) : Bool :=
  key.allTypes.any fun t => t = .Region ∨ t = .Subregion ∨ t = .Locality

/-- `Context::ContainsTokenIds`. -/
def containsTokenIds (key : BeamKey) (needTokenIds : List Nat) : Bool :=
  includes key.tokenIds needTokenIds

/-- `Context::IsGoodForPotentialHouseNumberAt` from `geocoder.cpp`. -/
def isGoodForPotentialHouseNumberAt (tokens : List String) (key : BeamKey)
    (tokenIds : List Nat) : Bool :=
  if key.tokenIds.length = tokens.length then true
  else if isBuildingWithAddress key then true
  else if hasLocalityOrRegion key ∧ containsTokenIds key tokenIds then true
  else false

/-- The emission loop of `Context::FillResults`: iterate the beam entries in
order; skip an entry whose `osmId` was already seen (the id of every iterated
entry is inserted into `seen`, also when the entry is then dropped by the
house-number filter); when the house-number set is non-empty, drop entries
failing `IsGoodForPotentialHouseNumberAt`; emit the rest in order. -/
def fillLoop (tokens : List String) (hn : List Nat) :
    List BeamEntry → List Nat → List Result → List Result
  | [], _, results => results
  | e :: rest, seen, results =>
    if e.key.osmId ∈ seen then fillLoop tokens hn rest seen results
    else
      let seen' := e.key.osmId :: seen
      if ¬hn.isEmpty ∧ ¬isGoodForPotentialHouseNumberAt tokens e.key hn then
        fillLoop tokens hn rest seen' results
      else fillLoop tokens hn rest seen' (results ++ [⟨e.key.osmId, e.value⟩])

/-- `Context::FillResults`: clear the output vector, emit the deduplicated
and filtered beam entries, and when non-empty divide every certainty by the
first (maximum) one. -/
def fillResults (results0 : List Result) (tokens : List String) (ctx : Ctx) : List Result :=
  let results := results0.take 0
  let results := fillLoop tokens ctx.houseNumberPositionsInQuery ctx.beam [] results
  if results.isEmpty then results
  else
    let first := (results.headD ⟨0, 0⟩).certainty
    results.map fun r => { r with certainty := qDiv r.certainty first }

/-- `Geocoder::ProcessQuery`: tokenize, run `Go` from `Country`, fill the
results. -/
def processQuery (g : Geo) (query : String) (results0 : List Result) : List Result :=
  let tokens := g.tokenize query
  fillResults results0 tokens (go g tokens 9 (initCtx tokens) .Country)

/-- Number of used positions: `count(tokenTypes[i] ≠ Count)`. -/
def countUsed (tt : List GeoType) : Nat := (tt.filter fun t => decide (t ≠ .Count)).length

/-! ### The scoring loop: characterization of `goScan` -/
/-- The street-synonym trigger condition of the scoring loop at position `k`
of token-type state `tt` (without the "no mark yet" component, which the
characterization lemmas track separately). -/
def trig (g : Geo) (tokens : List String) (type : GeoType) (tt : List GeoType) (k : Nat) : Prop :=
  type = .Street ∧ tt.getD k .Count = .Count ∧ g.isStreetSynonym (tokens.getD k "") = true

instance (g : Geo) (tokens : List String) (type : GeoType) (tt : List GeoType) (k : Nat) :
    Decidable (trig g tokens type tt k) := by
  unfold trig; infer_instance

/-- Sum of the weights of the token types at the given positions. -/
def sumWeightsOver (tt : List GeoType) (l : List Nat) : ℚ :=
  (l.map fun k => getWeight (tt.getD k .Count)).sum

/-- The used-position collector of the scoring loop. -/
def usedFilter (tt : List GeoType) (l : List Nat) : List Nat :=
  l.filter fun k => decide (tt.getD k .Count ≠ .Count)

/-! ### Beam invariants -/
/-- The beam entries are in non-increasing score order. -/
def beamSorted (b : List BeamEntry) : Prop := b.Pairwise fun x y => y.value ≤ x.value

/-- Invariant of the bounded top-k beam: sorted scores, at most K entries,
and (as maintained by `go`) every retained score positive. -/
def beamInv (b : List BeamEntry) : Prop :=
  beamSorted b ∧ b.length ≤ kMaxResults ∧ ∀ e ∈ b, 0 < e.value

/-! ### Preservation of context fields through the recursion -/
/-- Basic well-formedness of a context for a fixed token list: the type
vector is parallel to the tokens and `numUsedTokens` counts the non-`Count`
positions (spec §3 invariant). -/
def ctxInv (tokens : List String) (c : Ctx) : Prop :=
  c.tokenTypes.length = tokens.length ∧ c.numUsedTokens = countUsed c.tokenTypes

/-- What one level of `Go` preserves: token types, the used counter and the
layer stack are restored exactly, and the beam invariant is maintained. -/
def pres (c c' : Ctx) : Prop :=
  c'.tokenTypes = c.tokenTypes ∧ c'.numUsedTokens = c.numUsedTokens ∧
    c'.layers = c.layers ∧ (beamInv c.beam → beamInv c'.beam)

/-! ### Concrete environments for witnesses and counterexamples -/
/-- A small concrete environment: the spec §8 seed hierarchy (country
"france", locality "paris"), with trivial text helpers. -/
def envFrance : Geo where
  docs :=
    [ ⟨1, .Country, ["france"], "", []⟩,
      ⟨3, .Locality, ["paris"], "", [1]⟩ ]
  isStreetSynonym := fun _ => false
  looksLikeHouseNumber := fun s _ => s == "42"
  houseNumbersMatch := fun a b _ => a == b
  tokenize := fun q =>
    if q = "france" then ["france"]
    else if q = "paris france" then ["paris", "france"] else []

/-- A concrete environment exercising the street-synonym scan: one street
"rivoli" and a query whose second token is a street synonym. -/
def envC1 : Geo where
  docs := [⟨7, .Street, ["rivoli"], "", []⟩]
  isStreetSynonym := fun s => s == "ave"
  looksLikeHouseNumber := fun _ _ => false
  houseNumbersMatch := fun _ _ _ => false
  tokenize := fun q => if q = "rivoli ave" then ["rivoli", "ave"] else []

/-- The spec §8 scenario-5 environment: a full hierarchy including a
building with house number "42", queried as "42 paris" (house number with
no street). -/
def env42 : Geo where
  docs :=
    [ ⟨1, .Country, ["france"], "", []⟩,
      ⟨2, .Region, ["ile"], "", [1]⟩,
      ⟨3, .Locality, ["paris"], "", [1, 2]⟩,
      ⟨5, .Street, ["rue", "de", "rivoli"], "", [1, 2, 3]⟩,
      ⟨4, .Building, [], "42", [1, 2, 3, 5]⟩ ]
  isStreetSynonym := fun s => s == "rue"
  looksLikeHouseNumber := fun s _ => s == "42" || s == "1"
  houseNumbersMatch := fun a b _ => a == b
  tokenize := fun q => if q = "42 paris" then ["42", "paris"] else []

/-! ### The house-number filter and the emission rule, as the claim words them -/
/-- The claim's reading of `IsGoodForPotentialHouseNumberAt`: the key used
every query token, or it is a Building whose types contain one of
Region/Subregion/Locality plus a Street plus a Building, or its types
contain a locality-or-region and its tokenIds are a superset of the
house-number positions. -/
def isGoodSpec (tokens : List String) (key : BeamKey) (hn : List Nat) : Prop :=
  key.tokenIds.length = tokens.length ∨
    (key.type = .Building ∧
      (∃ t ∈ key.allTypes, t = .Region ∨ t = .Subregion ∨ t = .Locality) ∧
      .Street ∈ key.allTypes ∧ .Building ∈ key.allTypes) ∨
    ((∃ t ∈ key.allTypes, t = .Region ∨ t = .Subregion ∨ t = .Locality) ∧
      ∀ x ∈ hn, x ∈ key.tokenIds)

instance (tokens : List String) (key : BeamKey) (hn : List Nat) :
    Decidable (isGoodSpec tokens key hn) := by
  unfold isGoodSpec
  infer_instance

/-- The claim's reading of the emission rule of `FillResults`: an entry is
emitted iff no earlier-iterated entry had the same osmId and, when the
house-number set is non-empty, the key passes the house-number filter.
`prev` collects every earlier-iterated entry. -/
def emitSpec (tokens : List String) (hn : List Nat) :
    List BeamEntry → List BeamEntry → List Result
  | _, [] => []
  | prev, e :: rest =>
    if (∀ e' ∈ prev, e'.key.osmId ≠ e.key.osmId) ∧ (hn ≠ [] → isGoodSpec tokens e.key hn) then
      ⟨e.key.osmId, e.value⟩ :: emitSpec tokens hn (prev ++ [e]) rest
    else emitSpec tokens hn (prev ++ [e]) rest

/-! ### Checked interpreter: the CHECK assertions of the source as `Option` -/
/-- `NextType`'s `CHECK_NOT_EQUAL(type, Type::Count, ())`. -/
def nextTypeC (t : GeoType) : Option GeoType :=
  if t = .Count then none else some (nextType t)

/-- `Context::GetTokenType`'s `CHECK_LESS(id, m_tokenTypes.size(), ())`. -/
def getTokenTypeC (ctx : Ctx) (id : Nat) : Option GeoType :=
  if id < ctx.tokenTypes.length then some (ctx.tokenTypes.getD id .Count) else none

/-- `Context::GetToken`'s `CHECK_LESS(id, m_tokens.size(), ())`. -/
def getTokenC (tokens : List String) (id : Nat) : Option String :=
  if id < tokens.length then some (tokens.getD id "") else none

/-- `Context::MarkToken`'s `CHECK_LESS(id, m_tokens.size(), ())`. -/
def markTokenC (tokens : List String) (ctx : Ctx) (id : Nat) (t : GeoType) : Option Ctx :=
  if id < tokens.length then some (markToken ctx id t) else none

/-- `Context::IsTokenUsed`'s `CHECK_LESS(id, m_tokens.size(), ())`. -/
def isTokenUsedC (tokens : List String) (ctx : Ctx) (id : Nat) : Option Bool :=
  if id < tokens.length then some (isTokenUsed ctx id) else none

/-- The `MarkToken` loop shared by the `ScopedMarkTokens` constructor and
destructor, with each `MarkToken`'s own check. -/
def loopMarkC (tokens : List String) (t : GeoType) (l r : Nat) (ctx : Ctx) : Option Ctx :=
  (List.range' l (r - l)).foldl
    (fun c? k => c?.bind fun c => markTokenC tokens c k t) (some ctx)

/-- The `ScopedMarkTokens` constructor: `CHECK_LESS_OR_EQUAL(l, r, ())` and
`CHECK_LESS_OR_EQUAL(r, context.GetNumTokens(), ())`, then the mark loop. -/
def scopedMarkC (tokens : List String) (ctx : Ctx) (t : GeoType) (l r : Nat) : Option Ctx :=
  if l ≤ r ∧ r ≤ tokens.length then loopMarkC tokens t l r ctx else none

/-- `Geocoder::HasParent`'s `CHECK(!layers.empty(), ())`. -/
def hasParentC (g : Geo) (layers : List Layer) (e : Entry) : Option Bool :=
  if layers.isEmpty then none else some (hasParent g layers e)

/-- `FillRegularLayer` with the short-circuit `layers.empty() ||
HasParent(...)` made explicit, so `HasParent`'s check is reached only when
the stack is non-empty. -/
def fillRegularLayerC (g : Geo) (layers : List Layer) (type : GeoType)
    (subquery : List String) : Option (List Nat) :=
  (List.range g.docs.length).foldl
    (fun acc? d => acc?.bind fun acc =>
      if docMatches subquery (getDoc g d) then
        if (getDoc g d).type = type then
          if layers.isEmpty then some (acc ++ [d])
          else (hasParentC g layers (getDoc g d)).map fun b => if b then acc ++ [d] else acc
        else some acc
      else some acc)
    (some [])

/-- The scoring loop with the checks of `GetTokenType`, `GetToken` and the
synonym `ScopedMarkTokens`. -/
def goScanAuxC (g : Geo) (tokens : List String) (type : GeoType) :
    List Nat → Ctx → Option Nat → ℚ → List Nat → List GeoType → Option ScanResult
  | [], ctx, syn, cert, ids, tys => some ⟨cert, ids, tys, ctx, syn⟩
  | tokId :: rest, ctx, syn, cert, ids, tys =>
    (getTokenTypeC ctx tokId).bind fun t =>
    (if type = .Street ∧ t = .Count ∧ syn = none then
        (getTokenC tokens tokId).map fun tok => g.isStreetSynonym tok
      else some false).bind fun syno =>
    (if syno then
        (scopedMarkC tokens ctx .Street tokId (tokId + 1)).map fun c => (c, some tokId)
      else some (ctx, syn)).bind fun step =>
    goScanAuxC g tokens type rest step.1 step.2 (qAdd cert (getWeight t))
      (if t ≠ .Count then ids ++ [tokId] else ids)
      (if t ≠ .Count then tys ++ [t] else tys)

def goScanC (g : Geo) (tokens : List String) (type : GeoType) (ctx : Ctx) :
    Option ScanResult :=
  goScanAuxC g tokens type (List.range tokens.length) ctx none 0 [] []

/-- The post-scan body with the checks of `NextType` (at the recursive call)
and of the synonym mark's destructor loop. -/
def goJ2C (g : Geo) (tokens : List String) (recurC : Ctx → GeoType → Option Ctx)
    (type : GeoType) (entries : List Nat) (scanned : ScanResult) : Option Ctx :=
  let ctx2 := entries.foldl
    (fun c docId =>
      addResult c (getDoc g docId).osmId scanned.certainty type
        scanned.tokenIds scanned.allTypes)
    scanned.ctx
  let ctx3 := { ctx2 with layers := ctx2.layers ++ [⟨type, entries⟩] }
  (nextTypeC type).bind fun nt =>
  (recurC ctx3 nt).bind fun ctx4 =>
  let ctx5 := { ctx4 with layers := ctx4.layers.dropLast }
  match scanned.syn with
  | none => some ctx5
  | some p => loopMarkC tokens .Count p (p + 1) ctx5

def goJcoreC (g : Geo) (tokens : List String) (recurC : Ctx → GeoType → Option Ctx)
    (type : GeoType) (i j : Nat) (filled : List Nat × Ctx) : Option Ctx :=
  (scopedMarkC tokens filled.2 type i (j + 1)).bind fun ctx1 =>
  (goScanC g tokens type ctx1).bind fun scanned =>
  (goJ2C g tokens recurC type filled.1 scanned).bind fun ctx6 =>
  loopMarkC tokens .Count i (j + 1) ctx6

def goJC (g : Geo) (tokens : List String) (recurC : Ctx → GeoType → Option Ctx)
    (type : GeoType) (i : Nat) : Nat → Nat → Ctx → Option Ctx
  | 0, _, ctx => some ctx
  | k + 1, j, ctx =>
    if j < tokens.length then
      (isTokenUsedC tokens ctx j).bind fun used =>
      if used then some ctx
      else
        (getTokenC tokens j).bind fun _ =>
        (if type = .Building then
            some (fillBuildingsLayer g ctx ((tokens.drop i).take (j + 1 - i))
              (List.range' i (j + 1 - i)))
          else
            (fillRegularLayerC g ctx.layers type ((tokens.drop i).take (j + 1 - i))).map
              fun es => (es, ctx)).bind fun filled =>
        if filled.1.isEmpty then goJC g tokens recurC type i k (j + 1) filled.2
        else (goJcoreC g tokens recurC type i j filled).bind fun c7 =>
          goJC g tokens recurC type i k (j + 1) c7
    else some ctx

def goC (g : Geo) (tokens : List String) : Nat → Ctx → GeoType → Option Ctx
  | 0, ctx, _ => some ctx
  | fuel + 1, ctx, type =>
    if tokens.length = 0 then some ctx
    else if allTokensUsed tokens ctx then some ctx
    else if type = .Count then some ctx
    else
      ((List.range tokens.length).foldl
        (fun c? i => c?.bind fun c =>
          goJC g tokens (fun c2 t2 => goC g tokens fuel c2 t2) type i
            (tokens.length - i) i c)
        (some ctx)).bind fun ctx' =>
      (nextTypeC type).bind fun nt => goC g tokens fuel ctx' nt

/-- `ProcessQuery` under the checked interpreter. -/
def processQueryC (g : Geo) (query : String) (results0 : List Result) :
    Option (List Result) :=
  (goC g (g.tokenize query) 9 (initCtx (g.tokenize query)) .Country).map
    (fillResults results0 (g.tokenize query))

theorem qAdd_eq_add (a b : ℚ) : qAdd a b = a + b := by
  rw [Rat.add_def]
  simp [qAdd, Rat.normalize_eq_mkRat, Int.mul_comm]

theorem qDiv_eq_div (a b : ℚ) : qDiv a b = a / b := by
  rcases eq_or_ne b 0 with rfl | hb
  · simp [qDiv]
  · have hbn : (b.num : ℚ) ≠ 0 := by
      exact_mod_cast Rat.num_ne_zero.mpr hb
    have had : (a.den : ℚ) ≠ 0 := by
      exact_mod_cast a.den_nz
    have ha : (a.num : ℚ) = a * a.den := (div_eq_iff had).mp (Rat.num_div_den a)
    have hbd : (b.den : ℚ) ≠ 0 := by
      exact_mod_cast b.den_nz
    have hbq : (b.num : ℚ) = b * b.den := (div_eq_iff hbd).mp (Rat.num_div_den b)
    have key : qDiv a b = ((a.num * b.den : ℤ) : ℚ) / ((a.den * b.num : ℤ) : ℚ) :=
      Rat.divInt_eq_div _ _
    rw [key]
    push_cast
    rw [div_eq_div_iff (mul_ne_zero had hbn) hb, ha, hbq]
    ring

/-! ### Basic lemmas about weights, counting and marking -/
theorem getWeight_nonneg (t : GeoType) : 0 ≤ getWeight t := by
  cases t <;> decide

theorem getWeight_pos (t : GeoType) (h : t ≠ .Count) : 0 < getWeight t := by
  cases t <;> first | decide | exact absurd rfl h

theorem countUsed_cons (a : GeoType) (l : List GeoType) :
    countUsed (a :: l) = (if a ≠ .Count then 1 else 0) + countUsed l := by
  simp only [countUsed, List.filter_cons]
  by_cases h : a = .Count <;> simp [h, Nat.add_comm]

theorem getD_set_self (l : List GeoType) (i : Nat) (t : GeoType) (h : i < l.length) :
    (l.set i t).getD i .Count = t := by
  simp [List.getD, List.getElem?_set, h]

theorem getD_set_ne (l : List GeoType) (i k : Nat) (t : GeoType) (h : k ≠ i) :
    (l.set i t).getD k .Count = l.getD k .Count := by
  simp [List.getD, List.getElem?_set, Ne.symm h]

theorem set_cons_zero' (a t : GeoType) (l : List GeoType) : (a :: l).set 0 t = t :: l := rfl

theorem set_cons_succ' (a t : GeoType) (l : List GeoType) (n : Nat) :
    (a :: l).set (n + 1) t = a :: l.set n t := rfl

theorem getD_cons_zero' (a : GeoType) (l : List GeoType) : (a :: l).getD 0 .Count = a := rfl

theorem getD_cons_succ' (a : GeoType) (l : List GeoType) (n : Nat) :
    (a :: l).getD (n + 1) .Count = l.getD n .Count := rfl

theorem countUsed_set (tt : List GeoType) (i : Nat) (t : GeoType) (h : i < tt.length) :
    countUsed (tt.set i t) + (if tt.getD i .Count ≠ .Count then 1 else 0)
      = countUsed tt + (if t ≠ .Count then 1 else 0) := by
  induction tt generalizing i with
  | nil => simp at h
  | cons a l ih =>
    cases i with
    | zero =>
      simp only [set_cons_zero', getD_cons_zero', countUsed_cons]
      split_ifs <;> omega
    | succ n =>
      have hn : n < l.length := by simpa using h
      have hih := ih n hn
      simp only [set_cons_succ', getD_cons_succ', countUsed_cons]
      split_ifs at hih ⊢ <;> omega

theorem markToken_tokenTypes (ctx : Ctx) (id : Nat) (t : GeoType) :
    (markToken ctx id t).tokenTypes = ctx.tokenTypes.set id t := rfl

theorem markToken_layers (ctx : Ctx) (id : Nat) (t : GeoType) :
    (markToken ctx id t).layers = ctx.layers := rfl

theorem markToken_beam (ctx : Ctx) (id : Nat) (t : GeoType) :
    (markToken ctx id t).beam = ctx.beam := rfl

theorem markToken_hn (ctx : Ctx) (id : Nat) (t : GeoType) :
    (markToken ctx id t).houseNumberPositionsInQuery = ctx.houseNumberPositionsInQuery := rfl

theorem markToken_length (ctx : Ctx) (id : Nat) (t : GeoType) :
    (markToken ctx id t).tokenTypes.length = ctx.tokenTypes.length := by
  simp [markToken_tokenTypes]

theorem markToken_numUsed (ctx : Ctx) (id : Nat) (t : GeoType) :
    (markToken ctx id t).numUsedTokens =
      (if ¬(ctx.tokenTypes.getD id .Count ≠ .Count) ∧ t ≠ .Count then
        (if (ctx.tokenTypes.getD id .Count ≠ .Count) ∧ ¬(t ≠ .Count) then
          ctx.numUsedTokens - 1 else ctx.numUsedTokens) + 1
      else
        (if (ctx.tokenTypes.getD id .Count ≠ .Count) ∧ ¬(t ≠ .Count) then
          ctx.numUsedTokens - 1 else ctx.numUsedTokens)) := rfl

theorem markToken_count (ctx : Ctx) (id : Nat) (t : GeoType)
    (h : id < ctx.tokenTypes.length)
    (hinv : ctx.numUsedTokens = countUsed ctx.tokenTypes) :
    (markToken ctx id t).numUsedTokens = countUsed (markToken ctx id t).tokenTypes := by
  have hc := countUsed_set ctx.tokenTypes id t h
  rw [markToken_numUsed, markToken_tokenTypes, hinv]
  by_cases hw : ctx.tokenTypes.getD id .Count = .Count <;>
    by_cases ht : t = .Count <;>
      simp only [hw, ht, ne_eq, not_true_eq_false, not_false_eq_true, not_not, true_and,
        and_true, false_and, and_false, if_true, if_false, ite_true, ite_false,
        if_neg, if_pos] at hc ⊢ <;>
      omega

/-! ### The marking fold: `markRange` characterization -/
theorem foldlMark_tokenTypes (t : GeoType) (L : List Nat) :
    ∀ ctx : Ctx, (L.foldl (fun c k => markToken c k t) ctx).tokenTypes
      = L.foldl (fun tt k => tt.set k t) ctx.tokenTypes := by
  induction L with
  | nil => intro ctx; rfl
  | cons a L ih =>
    intro ctx
    simpa [markToken_tokenTypes] using ih (markToken ctx a t)

theorem foldlMark_layers (t : GeoType) (L : List Nat) :
    ∀ ctx : Ctx, (L.foldl (fun c k => markToken c k t) ctx).layers = ctx.layers := by
  induction L with
  | nil => intro ctx; rfl
  | cons a L ih => intro ctx; simpa [markToken_layers] using ih (markToken ctx a t)

theorem foldlMark_beam (t : GeoType) (L : List Nat) :
    ∀ ctx : Ctx, (L.foldl (fun c k => markToken c k t) ctx).beam = ctx.beam := by
  induction L with
  | nil => intro ctx; rfl
  | cons a L ih => intro ctx; simpa [markToken_beam] using ih (markToken ctx a t)

theorem foldlMark_hn (t : GeoType) (L : List Nat) :
    ∀ ctx : Ctx, (L.foldl (fun c k => markToken c k t) ctx).houseNumberPositionsInQuery
      = ctx.houseNumberPositionsInQuery := by
  induction L with
  | nil => intro ctx; rfl
  | cons a L ih => intro ctx; simpa [markToken_hn] using ih (markToken ctx a t)

theorem foldlSet_length (t : GeoType) (L : List Nat) :
    ∀ tt : List GeoType, (L.foldl (fun tt k => tt.set k t) tt).length = tt.length := by
  induction L with
  | nil => intro tt; rfl
  | cons a L ih => intro tt; simpa using ih (tt.set a t)

theorem foldlSet_getD (t : GeoType) (L : List Nat) :
    ∀ (tt : List GeoType) (k : Nat),
      (L.foldl (fun tt i => tt.set i t) tt).getD k .Count
        = if k ∈ L ∧ k < tt.length then t else tt.getD k .Count := by
  induction L with
  | nil => intro tt k; simp
  | cons a L ih =>
    intro tt k
    rw [List.foldl_cons, ih (tt.set a t) k, List.length_set]
    by_cases hlen : k < tt.length
    · by_cases hmem : k ∈ L
      · rw [if_pos ⟨hmem, hlen⟩, if_pos ⟨List.mem_cons_of_mem _ hmem, hlen⟩]
      · rw [if_neg (by tauto)]
        by_cases hka : k = a
        · subst hka
          rw [getD_set_self _ _ _ hlen, if_pos ⟨List.mem_cons_self _ _, hlen⟩]
        · rw [getD_set_ne _ _ _ _ hka, if_neg (by simp [List.mem_cons, hka, hmem])]
    · have h1 : (tt.set a t).getD k .Count = .Count :=
        List.getD_eq_default _ _ (by rw [List.length_set]; omega)
      have h2 : tt.getD k .Count = .Count := List.getD_eq_default _ _ (by omega)
      rw [if_neg (by tauto), if_neg (by tauto), h1, h2]

theorem markRange_tokenTypes_getD (ctx : Ctx) (t : GeoType) (l r k : Nat) :
    (markRange ctx t l r).tokenTypes.getD k .Count
      = if l ≤ k ∧ k < r ∧ k < ctx.tokenTypes.length then t
        else ctx.tokenTypes.getD k .Count := by
  rw [markRange, foldlMark_tokenTypes, foldlSet_getD]
  have hmem : k ∈ List.range' l (r - l) ↔ l ≤ k ∧ k < l + (r - l) := List.mem_range'_1
  by_cases hc : l ≤ k ∧ k < r ∧ k < ctx.tokenTypes.length
  · have : k ∈ List.range' l (r - l) := hmem.mpr (by omega)
    simp [this, hc.2.2, hc]
  · by_cases hm : k ∈ List.range' l (r - l) ∧ k < ctx.tokenTypes.length
    · exfalso
      have := hmem.mp hm.1
      exact hc ⟨this.1, by omega, hm.2⟩
    · simp only [if_neg hm, if_neg hc]

theorem markRange_length (ctx : Ctx) (t : GeoType) (l r : Nat) :
    (markRange ctx t l r).tokenTypes.length = ctx.tokenTypes.length := by
  rw [markRange, foldlMark_tokenTypes, foldlSet_length]

theorem markRange_layers (ctx : Ctx) (t : GeoType) (l r : Nat) :
    (markRange ctx t l r).layers = ctx.layers := foldlMark_layers ..

theorem markRange_beam (ctx : Ctx) (t : GeoType) (l r : Nat) :
    (markRange ctx t l r).beam = ctx.beam := foldlMark_beam ..

theorem markRange_hn (ctx : Ctx) (t : GeoType) (l r : Nat) :
    (markRange ctx t l r).houseNumberPositionsInQuery
      = ctx.houseNumberPositionsInQuery := foldlMark_hn ..

theorem foldlMark_count (t : GeoType) (L : List Nat) :
    ∀ ctx : Ctx, (∀ k ∈ L, k < ctx.tokenTypes.length) →
      ctx.numUsedTokens = countUsed ctx.tokenTypes →
      (L.foldl (fun c k => markToken c k t) ctx).numUsedTokens
        = countUsed (L.foldl (fun c k => markToken c k t) ctx).tokenTypes := by
  induction L with
  | nil => intro ctx _ hinv; exact hinv
  | cons a L ih =>
    intro ctx hmem hinv
    rw [List.foldl_cons]
    apply ih (markToken ctx a t)
    · intro k hk
      rw [markToken_length]
      exact hmem k (List.mem_cons_of_mem _ hk)
    · exact markToken_count ctx a t (hmem a (List.mem_cons_self _ _)) hinv

theorem markRange_count (ctx : Ctx) (t : GeoType) (l r : Nat)
    (hr : r ≤ ctx.tokenTypes.length)
    (hinv : ctx.numUsedTokens = countUsed ctx.tokenTypes) :
    (markRange ctx t l r).numUsedTokens = countUsed (markRange ctx t l r).tokenTypes := by
  apply foldlMark_count
  · intro k hk
    have := List.mem_range'_1.mp hk
    omega
  · exact hinv

theorem sumWeightsOver_nil (tt : List GeoType) : sumWeightsOver tt [] = 0 := rfl

theorem sumWeightsOver_cons (tt : List GeoType) (p : Nat) (l : List Nat) :
    sumWeightsOver tt (p :: l) = getWeight (tt.getD p .Count) + sumWeightsOver tt l := by
  simp [sumWeightsOver]

theorem sumWeightsOver_nonneg (tt : List GeoType) (l : List Nat) : 0 ≤ sumWeightsOver tt l := by
  apply List.sum_nonneg
  intro x hx
  obtain ⟨k, _, rfl⟩ := List.mem_map.mp hx
  exact getWeight_nonneg _

theorem sumWeightsOver_ge_single (tt : List GeoType) (l : List Nat) (k : Nat) (hk : k ∈ l) :
    getWeight (tt.getD k .Count) ≤ sumWeightsOver tt l := by
  apply List.single_le_sum
  · intro x hx
    obtain ⟨m, _, rfl⟩ := List.mem_map.mp hx
    exact getWeight_nonneg _
  · exact List.mem_map.mpr ⟨k, hk, rfl⟩

/-- Characterization of the scoring loop after a synonym mark was already
placed: nothing is marked any more, and certainty, token ids and types are
computed from the current (unchanged) token-type state. -/
theorem goScanAux_some (g : Geo) (tokens : List String) (type : GeoType) (l : List Nat) :
    ∀ (ctx : Ctx) (s : Nat) (cert : ℚ) (ids : List Nat) (tys : List GeoType),
      goScanAux g tokens type l ctx (some s) cert ids tys =
        ⟨cert + sumWeightsOver ctx.tokenTypes l,
         ids ++ usedFilter ctx.tokenTypes l,
         tys ++ (usedFilter ctx.tokenTypes l).map (fun k => ctx.tokenTypes.getD k .Count),
         ctx, some s⟩ := by
  induction l with
  | nil =>
    intro ctx s cert ids tys
    simp [goScanAux, sumWeightsOver_nil, usedFilter]
  | cons p rest ih =>
    intro ctx s cert ids tys
    have hcond : ¬(type = .Street ∧ ctx.tokenTypes.getD p .Count = .Count ∧
        (some s : Option Nat) = none ∧ g.isStreetSynonym (tokens.getD p "") = true) := by
      simp
    rw [goScanAux]
    simp only [if_neg hcond, qAdd_eq_add]
    by_cases ht : ctx.tokenTypes.getD p .Count = .Count
    · rw [if_neg (not_not_intro ht), ih]
      have ht2 : decide (ctx.tokenTypes.getD p .Count ≠ .Count) = false :=
        decide_eq_false (not_not_intro ht)
      have hf : usedFilter ctx.tokenTypes (p :: rest) = usedFilter ctx.tokenTypes rest := by
        simp only [usedFilter, List.filter_cons, ht2]
        simp
      rw [hf, sumWeightsOver_cons]
      simp only [ScanResult.mk.injEq]
      exact ⟨by ring, by simp, by simp, by simp, by simp⟩
    · rw [if_pos ht, ih]
      have ht2 : decide (ctx.tokenTypes.getD p .Count ≠ .Count) = true := decide_eq_true ht
      have hf : usedFilter ctx.tokenTypes (p :: rest) = p :: usedFilter ctx.tokenTypes rest := by
        simp only [usedFilter, List.filter_cons, ht2]
        simp
      rw [hf, sumWeightsOver_cons]
      simp only [ScanResult.mk.injEq]
      refine ⟨by ring, by simp, by simp, by simp, by simp⟩

/-- Characterization of the scoring loop started with no synonym mark:
certainty, token ids and types are computed from the token-type state as it
was at entry (each position's type is read before any mark at that
position), and either no position triggers the street-synonym mark and the
state is unchanged, or the first triggering position `p` is scope-marked
`[p, p+1)` as `Street`. -/
theorem goScanAux_none (g : Geo) (tokens : List String) (type : GeoType) (l : List Nat) :
    ∀ (ctx : Ctx) (cert : ℚ) (ids : List Nat) (tys : List GeoType), l.Nodup →
      (goScanAux g tokens type l ctx none cert ids tys).certainty
          = cert + sumWeightsOver ctx.tokenTypes l ∧
      (goScanAux g tokens type l ctx none cert ids tys).tokenIds
          = ids ++ usedFilter ctx.tokenTypes l ∧
      (goScanAux g tokens type l ctx none cert ids tys).allTypes
          = tys ++ (usedFilter ctx.tokenTypes l).map (fun k => ctx.tokenTypes.getD k .Count) ∧
      (((∀ k ∈ l, ¬trig g tokens type ctx.tokenTypes k) ∧
          (goScanAux g tokens type l ctx none cert ids tys).ctx = ctx ∧
          (goScanAux g tokens type l ctx none cert ids tys).syn = none) ∨
        (∃ l₁ p l₂, l = l₁ ++ p :: l₂ ∧ (∀ q ∈ l₁, ¬trig g tokens type ctx.tokenTypes q) ∧
          trig g tokens type ctx.tokenTypes p ∧
          (goScanAux g tokens type l ctx none cert ids tys).ctx
            = markRange ctx .Street p (p + 1) ∧
          (goScanAux g tokens type l ctx none cert ids tys).syn = some p)) := by
  induction l with
  | nil =>
    intro ctx cert ids tys _
    refine ⟨by simp [goScanAux, sumWeightsOver_nil], by simp [goScanAux, usedFilter],
      by simp [goScanAux, usedFilter], Or.inl ⟨by simp, rfl, rfl⟩⟩
  | cons p rest ih =>
    intro ctx cert ids tys hnd
    obtain ⟨hp, hnd'⟩ := List.nodup_cons.mp hnd
    rw [goScanAux]
    simp only [qAdd_eq_add]
    by_cases htr : type = .Street ∧ ctx.tokenTypes.getD p .Count = .Count ∧
        True ∧ g.isStreetSynonym (tokens.getD p "") = true
    · -- the synonym mark triggers at `p`
      rw [if_pos htr]
      have ht : ctx.tokenTypes.getD p .Count = .Count := htr.2.1
      have ht2 : decide (ctx.tokenTypes.getD p .Count ≠ .Count) = false :=
        decide_eq_false (not_not_intro ht)
      rw [if_neg (not_not_intro ht)]
      rw [goScanAux_some]
      have hagree : ∀ k ∈ rest,
          (markRange ctx .Street p (p + 1)).tokenTypes.getD k .Count
            = ctx.tokenTypes.getD k .Count := by
        intro k hk
        rw [markRange_tokenTypes_getD]
        rw [if_neg]
        rintro ⟨h1, h2, _⟩
        have : k = p := by omega
        exact hp (this ▸ hk)
      have hsum : sumWeightsOver (markRange ctx .Street p (p + 1)).tokenTypes rest
          = sumWeightsOver ctx.tokenTypes rest := by
        unfold sumWeightsOver
        congr 1
        exact List.map_eq_map_iff.mpr fun k hk => by rw [hagree k hk]
      have hfil : usedFilter (markRange ctx .Street p (p + 1)).tokenTypes rest
          = usedFilter ctx.tokenTypes rest := by
        unfold usedFilter
        exact List.filter_congr fun k hk => by rw [hagree k hk]
      have hmap : (usedFilter ctx.tokenTypes rest).map
            (fun k => (markRange ctx .Street p (p + 1)).tokenTypes.getD k .Count)
          = (usedFilter ctx.tokenTypes rest).map (fun k => ctx.tokenTypes.getD k .Count) :=
        List.map_eq_map_iff.mpr fun k hk =>
          hagree k (List.mem_of_mem_filter hk)
      have hfc : usedFilter ctx.tokenTypes (p :: rest) = usedFilter ctx.tokenTypes rest := by
        simp only [usedFilter, List.filter_cons, ht2]
        simp
      refine ⟨?_, ?_, ?_, Or.inr ⟨[], p, rest, by simp, by simp, ⟨htr.1, ht, htr.2.2.2⟩, rfl, rfl⟩⟩
      · rw [hsum, sumWeightsOver_cons, ht]
        ring
      · rw [hfil, hfc]
      · rw [hfil, hmap, hfc]
    · -- no trigger at `p`
      rw [if_neg htr]
      have hnotrig : ¬trig g tokens type ctx.tokenTypes p := by
        rintro ⟨h1, h2, h3⟩
        exact htr ⟨h1, h2, trivial, h3⟩
      by_cases ht : ctx.tokenTypes.getD p .Count = .Count
      · have ht2 : decide (ctx.tokenTypes.getD p .Count ≠ .Count) = false :=
          decide_eq_false (not_not_intro ht)
        rw [if_neg (not_not_intro ht)]
        obtain ⟨hc, hi, hy, hd⟩ :=
          ih ctx (cert + getWeight (ctx.tokenTypes.getD p .Count)) ids tys hnd'
        have hfc : usedFilter ctx.tokenTypes (p :: rest) = usedFilter ctx.tokenTypes rest := by
          simp only [usedFilter, List.filter_cons, ht2]
          simp
        refine ⟨?_, ?_, ?_, ?_⟩
        · rw [hc, sumWeightsOver_cons]
          ring
        · rw [hi, hfc]
        · rw [hy, hfc]
        · rcases hd with ⟨hall, hctx, hsyn⟩ | ⟨l₁, q, l₂, heq, hfirst, htq, hctx, hsyn⟩
          · exact Or.inl ⟨by
              intro k hk
              rcases List.mem_cons.mp hk with rfl | hk'
              · exact hnotrig
              · exact hall k hk', hctx, hsyn⟩
          · exact Or.inr ⟨p :: l₁, q, l₂, by rw [heq, List.cons_append], by
              intro x hx
              rcases List.mem_cons.mp hx with rfl | hx'
              · exact hnotrig
              · exact hfirst x hx', htq, hctx, hsyn⟩
      · have ht2 : decide (ctx.tokenTypes.getD p .Count ≠ .Count) = true := decide_eq_true ht
        rw [if_pos ht]
        obtain ⟨hc, hi, hy, hd⟩ :=
          ih ctx (cert + getWeight (ctx.tokenTypes.getD p .Count)) (ids ++ [p])
            (tys ++ [ctx.tokenTypes.getD p .Count]) hnd'
        have hfc : usedFilter ctx.tokenTypes (p :: rest)
            = p :: usedFilter ctx.tokenTypes rest := by
          simp only [usedFilter, List.filter_cons, ht2]
          simp
        refine ⟨?_, ?_, ?_, ?_⟩
        · rw [hc, sumWeightsOver_cons]
          ring
        · rw [hi, hfc]
          simp
        · rw [hy, hfc]
          simp
        · rcases hd with ⟨hall, hctx, hsyn⟩ | ⟨l₁, q, l₂, heq, hfirst, htq, hctx, hsyn⟩
          · exact Or.inl ⟨by
              intro k hk
              rcases List.mem_cons.mp hk with rfl | hk'
              · exact hnotrig
              · exact hall k hk', hctx, hsyn⟩
          · exact Or.inr ⟨p :: l₁, q, l₂, by rw [heq, List.cons_append], by
              intro x hx
              rcases List.mem_cons.mp hx with rfl | hx'
              · exact hnotrig
              · exact hfirst x hx', htq, hctx, hsyn⟩

theorem goScan_certainty (g : Geo) (tokens : List String) (type : GeoType) (ctx : Ctx) :
    (goScan g tokens type ctx).certainty
      = sumWeightsOver ctx.tokenTypes (List.range tokens.length) := by
  have h := (goScanAux_none g tokens type (List.range tokens.length) ctx 0 [] []
    (List.nodup_range _)).1
  simpa [goScan] using h

theorem goScan_tokenIds (g : Geo) (tokens : List String) (type : GeoType) (ctx : Ctx) :
    (goScan g tokens type ctx).tokenIds
      = usedFilter ctx.tokenTypes (List.range tokens.length) := by
  have h := (goScanAux_none g tokens type (List.range tokens.length) ctx 0 [] []
    (List.nodup_range _)).2.1
  simpa [goScan] using h

theorem goScan_allTypes (g : Geo) (tokens : List String) (type : GeoType) (ctx : Ctx) :
    (goScan g tokens type ctx).allTypes
      = (usedFilter ctx.tokenTypes (List.range tokens.length)).map
          (fun k => ctx.tokenTypes.getD k .Count) := by
  have h := (goScanAux_none g tokens type (List.range tokens.length) ctx 0 [] []
    (List.nodup_range _)).2.2.1
  simpa [goScan] using h

theorem goScan_ctx_cases (g : Geo) (tokens : List String) (type : GeoType) (ctx : Ctx) :
    ((goScan g tokens type ctx).ctx = ctx ∧ (goScan g tokens type ctx).syn = none) ∨
      (∃ p, p < tokens.length ∧ trig g tokens type ctx.tokenTypes p ∧
        (goScan g tokens type ctx).ctx = markRange ctx .Street p (p + 1) ∧
        (goScan g tokens type ctx).syn = some p) := by
  have h := (goScanAux_none g tokens type (List.range tokens.length) ctx 0 [] []
    (List.nodup_range _)).2.2.2
  rcases h with ⟨_, hctx, hsyn⟩ | ⟨l₁, p, l₂, heq, _, htp, hctx, hsyn⟩
  · exact Or.inl ⟨hctx, hsyn⟩
  · refine Or.inr ⟨p, ?_, htp, hctx, hsyn⟩
    have : p ∈ List.range tokens.length := by
      rw [heq]
      exact List.mem_append_right _ (List.mem_cons_self _ _)
    simpa using this

theorem insertDesc_length (b : List BeamEntry) (e : BeamEntry) :
    (insertDesc b e).length = b.length + 1 := by
  induction b with
  | nil => rfl
  | cons x xs ih =>
    rw [insertDesc]
    split_ifs <;> simp [ih]

theorem mem_insertDesc (b : List BeamEntry) (e x : BeamEntry) :
    x ∈ insertDesc b e ↔ x = e ∨ x ∈ b := by
  induction b with
  | nil => simp [insertDesc]
  | cons a xs ih =>
    rw [insertDesc]
    split_ifs
    · simp only [List.mem_cons]
    · simp only [List.mem_cons, ih]
      tauto

theorem insertDesc_sorted (b : List BeamEntry) (e : BeamEntry) (h : beamSorted b) :
    beamSorted (insertDesc b e) := by
  induction b with
  | nil => simp [insertDesc, beamSorted]
  | cons a xs ih =>
    rw [insertDesc]
    obtain ⟨ha, hxs⟩ := List.pairwise_cons.mp h
    split_ifs with hlt
    · refine List.pairwise_cons.mpr ⟨?_, h⟩
      intro y hy
      rcases List.mem_cons.mp hy with rfl | hy'
      · exact le_of_lt hlt
      · exact le_trans (ha y hy') (le_of_lt hlt)
    · refine List.pairwise_cons.mpr ⟨?_, ih hxs⟩
      intro y hy
      rcases (mem_insertDesc xs e y).mp hy with rfl | hy'
      · exact le_of_not_lt hlt
      · exact ha y hy'

theorem beamAdd_inv (b : List BeamEntry) (key : BeamKey) (v : ℚ)
    (h : beamInv b) (hv : 0 < v) : beamInv (beamAdd b key v) := by
  obtain ⟨hs, hl, hp⟩ := h
  rw [beamAdd]
  split_ifs with h1 h2
  · refine ⟨insertDesc_sorted b _ hs, ?_, ?_⟩
    · rw [insertDesc_length]
      simp only [kMaxResults] at h1 hl ⊢
      omega
    · intro e he
      rcases (mem_insertDesc b _ e).mp he with rfl | he'
      · exact hv
      · exact hp e he'
  · have hdl : List.Sublist b.dropLast b := List.dropLast_sublist b
    refine ⟨insertDesc_sorted _ _ (hs.sublist hdl), ?_, ?_⟩
    · rw [insertDesc_length, List.length_dropLast]
      simp only [kMaxResults] at h1 hl ⊢
      omega
    · intro e he
      rcases (mem_insertDesc _ _ e).mp he with rfl | he'
      · exact hv
      · exact hp e (hdl.subset he')
  · exact ⟨hs, hl, hp⟩

theorem addResult_beam (ctx : Ctx) (osmId : Nat) (c : ℚ) (type : GeoType)
    (ids : List Nat) (tys : List GeoType) :
    (addResult ctx osmId c type ids tys).beam = beamAdd ctx.beam ⟨osmId, type, ids, tys⟩ c := rfl

theorem addResult_tokenTypes (ctx : Ctx) (osmId : Nat) (c : ℚ) (type : GeoType)
    (ids : List Nat) (tys : List GeoType) :
    (addResult ctx osmId c type ids tys).tokenTypes = ctx.tokenTypes := rfl

theorem addResult_numUsed (ctx : Ctx) (osmId : Nat) (c : ℚ) (type : GeoType)
    (ids : List Nat) (tys : List GeoType) :
    (addResult ctx osmId c type ids tys).numUsedTokens = ctx.numUsedTokens := rfl

theorem addResult_layers (ctx : Ctx) (osmId : Nat) (c : ℚ) (type : GeoType)
    (ids : List Nat) (tys : List GeoType) :
    (addResult ctx osmId c type ids tys).layers = ctx.layers := rfl

theorem addResult_hn (ctx : Ctx) (osmId : Nat) (c : ℚ) (type : GeoType)
    (ids : List Nat) (tys : List GeoType) :
    (addResult ctx osmId c type ids tys).houseNumberPositionsInQuery
      = ctx.houseNumberPositionsInQuery := rfl

theorem pres_refl (c : Ctx) : pres c c := ⟨rfl, rfl, rfl, fun h => h⟩

theorem pres_trans {a b c : Ctx} (h1 : pres a b) (h2 : pres b c) : pres a c := by
  obtain ⟨t1, n1, l1, b1⟩ := h1
  obtain ⟨t2, n2, l2, b2⟩ := h2
  exact ⟨t2.trans t1, n2.trans n1, l2.trans l1, fun h => b2 (b1 h)⟩

theorem ctxInv_of_pres {tokens : List String} {a b : Ctx} (hp : pres a b)
    (h : ctxInv tokens a) : ctxInv tokens b := by
  obtain ⟨t, n, _, _⟩ := hp
  exact ⟨t ▸ h.1, by rw [t, n]; exact h.2⟩

theorem markHouseNumberPositionsInQuery_fields (ctx : Ctx) (ids : List Nat) :
    (markHouseNumberPositionsInQuery ctx ids).tokenTypes = ctx.tokenTypes ∧
    (markHouseNumberPositionsInQuery ctx ids).numUsedTokens = ctx.numUsedTokens ∧
    (markHouseNumberPositionsInQuery ctx ids).layers = ctx.layers ∧
    (markHouseNumberPositionsInQuery ctx ids).beam = ctx.beam := ⟨rfl, rfl, rfl, rfl⟩

theorem fbStep_fields (g : Geo) (hn : String) (ids : List Nat) (acc : List Nat × Ctx)
    (layer : Layer) :
    (fbStep g hn ids acc layer).2.tokenTypes = acc.2.tokenTypes ∧
    (fbStep g hn ids acc layer).2.numUsedTokens = acc.2.numUsedTokens ∧
    (fbStep g hn ids acc layer).2.layers = acc.2.layers ∧
    (fbStep g hn ids acc layer).2.beam = acc.2.beam := by
  rw [fbStep]
  split_ifs <;> exact ⟨rfl, rfl, rfl, rfl⟩

theorem fbFold_fields (g : Geo) (hn : String) (ids : List Nat) (L : List Layer) :
    ∀ acc : List Nat × Ctx,
      (L.foldl (fbStep g hn ids) acc).2.tokenTypes = acc.2.tokenTypes ∧
      (L.foldl (fbStep g hn ids) acc).2.numUsedTokens = acc.2.numUsedTokens ∧
      (L.foldl (fbStep g hn ids) acc).2.layers = acc.2.layers ∧
      (L.foldl (fbStep g hn ids) acc).2.beam = acc.2.beam := by
  induction L with
  | nil => intro acc; exact ⟨rfl, rfl, rfl, rfl⟩
  | cons l L ih =>
    intro acc
    obtain ⟨t, n, la, be⟩ := ih (fbStep g hn ids acc l)
    obtain ⟨t', n', la', be'⟩ := fbStep_fields g hn ids acc l
    exact ⟨t.trans t', n.trans n', la.trans la', be.trans be'⟩

theorem fillBuildingsLayer_fields (g : Geo) (ctx : Ctx) (subquery : List String)
    (ids : List Nat) :
    (fillBuildingsLayer g ctx subquery ids).2.tokenTypes = ctx.tokenTypes ∧
    (fillBuildingsLayer g ctx subquery ids).2.numUsedTokens = ctx.numUsedTokens ∧
    (fillBuildingsLayer g ctx subquery ids).2.layers = ctx.layers ∧
    (fillBuildingsLayer g ctx subquery ids).2.beam = ctx.beam := by
  rw [fillBuildingsLayer]
  split_ifs <;>
    first
      | exact ⟨rfl, rfl, rfl, rfl⟩
      | exact fbFold_fields g _ ids ctx.layers.reverse ([], ctx)

theorem foldAddResult_fields (g : Geo) (cert : ℚ) (type : GeoType) (ids : List Nat)
    (tys : List GeoType) (L : List Nat) :
    ∀ c : Ctx,
      (L.foldl (fun c2 docId =>
          addResult c2 (getDoc g docId).osmId cert type ids tys) c).tokenTypes
        = c.tokenTypes ∧
      (L.foldl (fun c2 docId =>
          addResult c2 (getDoc g docId).osmId cert type ids tys) c).numUsedTokens
        = c.numUsedTokens ∧
      (L.foldl (fun c2 docId =>
          addResult c2 (getDoc g docId).osmId cert type ids tys) c).layers = c.layers ∧
      (L.foldl (fun c2 docId =>
          addResult c2 (getDoc g docId).osmId cert type ids tys) c).houseNumberPositionsInQuery
        = c.houseNumberPositionsInQuery ∧
      (0 < cert → beamInv c.beam →
        beamInv (L.foldl (fun c2 docId =>
          addResult c2 (getDoc g docId).osmId cert type ids tys) c).beam) := by
  induction L with
  | nil => intro c; exact ⟨rfl, rfl, rfl, rfl, fun _ h => h⟩
  | cons d L ih =>
    intro c
    obtain ⟨t, n, la, hh, be⟩ := ih (addResult c (getDoc g d).osmId cert type ids tys)
    refine ⟨t, n, la, hh, fun hc hb => be hc ?_⟩
    rw [addResult_beam]
    exact beamAdd_inv _ _ _ hb hc

theorem listEq_of_getD (l₁ l₂ : List GeoType) (hlen : l₁.length = l₂.length)
    (h : ∀ m, m < l₁.length → l₁.getD m .Count = l₂.getD m .Count) : l₁ = l₂ := by
  apply List.ext_getElem hlen
  intro n h1 h2
  have hx := h n h1
  rwa [List.getD_eq_getElem l₁ _ h1, List.getD_eq_getElem l₂ _ h2] at hx

theorem isTokenUsed_false {ctx : Ctx} {j : Nat} (h : ¬isTokenUsed ctx j = true) :
    ctx.tokenTypes.getD j .Count = .Count := by
  by_contra hne
  apply h
  simp only [isTokenUsed]
  exact decide_eq_true hne

theorem goJ2_master (g : Geo) (tokens : List String) (recur : Ctx → GeoType → Ctx)
    (type : GeoType) (entries : List Nat) (scanned : ScanResult)
    (hrec : ∀ c t, ctxInv tokens c → pres c (recur c t))
    (tinv : ctxInv tokens scanned.ctx)
    (hposc : 0 < scanned.certainty) :
    ∃ W : Ctx, W.tokenTypes = scanned.ctx.tokenTypes ∧
      W.numUsedTokens = scanned.ctx.numUsedTokens ∧
      W.layers = scanned.ctx.layers ∧
      (beamInv scanned.ctx.beam → beamInv W.beam) ∧
      goJ2 g tokens recur type entries scanned
        = (match scanned.syn with
            | none => W
            | some p => markRange W .Count p (p + 1)) := by
  obtain ⟨t2, n2, l2, _, b2⟩ := foldAddResult_fields g scanned.certainty type
    scanned.tokenIds scanned.allTypes entries scanned.ctx
  set ctx2 := entries.foldl
    (fun c docId =>
      addResult c (getDoc g docId).osmId scanned.certainty type
        scanned.tokenIds scanned.allTypes)
    scanned.ctx with hctx2
  set ctx3 : Ctx := { ctx2 with layers := ctx2.layers ++ [⟨type, entries⟩] } with hctx3
  have inv3 : ctxInv tokens ctx3 := by
    refine ⟨?_, ?_⟩
    · show ctx2.tokenTypes.length = tokens.length
      rw [t2]
      exact tinv.1
    · show ctx2.numUsedTokens = countUsed ctx2.tokenTypes
      rw [t2, n2]
      exact tinv.2
  obtain ⟨t4, n4, l4, b4⟩ := hrec ctx3 (nextType type) inv3
  set ctx4 := recur ctx3 (nextType type) with hctx4
  refine ⟨{ ctx4 with layers := ctx4.layers.dropLast }, ?_, ?_, ?_, ?_, rfl⟩
  · show ctx4.tokenTypes = scanned.ctx.tokenTypes
    rw [t4]
    exact t2
  · show ctx4.numUsedTokens = scanned.ctx.numUsedTokens
    rw [n4]
    exact n2
  · show ctx4.layers.dropLast = scanned.ctx.layers
    rw [l4]
    show (ctx2.layers ++ [(⟨type, entries⟩ : Layer)]).dropLast = scanned.ctx.layers
    rw [List.dropLast_concat]
    exact l2
  · intro hb
    show beamInv ctx4.beam
    exact b4 (b2 hposc hb)

theorem goJcore_pres (g : Geo) (tokens : List String) (recur : Ctx → GeoType → Ctx)
    (type : GeoType) (i j : Nat) (filled : List Nat × Ctx)
    (hrec : ∀ c t, ctxInv tokens c → pres c (recur c t))
    (htype : type ≠ .Count)
    (hinv : ctxInv tokens filled.2)
    (hij : i ≤ j) (hjN : j < tokens.length)
    (hpre : ∀ m, i ≤ m → m < j + 1 → filled.2.tokenTypes.getD m .Count = .Count) :
    pres filled.2 (goJcore g tokens recur type i j filled) := by
  unfold goJcore
  set c := filled.2 with hc
  have hlen : c.tokenTypes.length = tokens.length := hinv.1
  set ctx1 := markRange c type i (j + 1) with hctx1
  have len1 : ctx1.tokenTypes.length = tokens.length := by
    rw [hctx1, markRange_length, hlen]
  have inv1 : ctxInv tokens ctx1 :=
    ⟨len1, by rw [hctx1]; exact markRange_count c type i (j + 1) (by rw [hlen]; omega) hinv.2⟩
  have lay1 : ctx1.layers = c.layers := by rw [hctx1]; exact markRange_layers ..
  have beam1 : ctx1.beam = c.beam := by rw [hctx1]; exact markRange_beam ..
  have getD1_in : ∀ m, i ≤ m → m < j + 1 → ctx1.tokenTypes.getD m .Count = type := by
    intro m h1 h2
    rw [hctx1, markRange_tokenTypes_getD, if_pos ⟨h1, h2, by rw [hlen]; omega⟩]
  have getD1_out : ∀ m, ¬(i ≤ m ∧ m < j + 1) →
      ctx1.tokenTypes.getD m .Count = c.tokenTypes.getD m .Count := by
    intro m hm
    rw [hctx1, markRange_tokenTypes_getD, if_neg (by tauto)]
  set scanned := goScan g tokens type ctx1 with hscan
  have hposc : 0 < scanned.certainty := by
    rw [hscan, goScan_certainty]
    have hiN : i < tokens.length := by omega
    have h1 := sumWeightsOver_ge_single ctx1.tokenTypes (List.range tokens.length) i
      (List.mem_range.mpr hiN)
    rw [getD1_in i le_rfl (by omega)] at h1
    exact lt_of_lt_of_le (getWeight_pos type htype) h1
  rcases goScan_ctx_cases g tokens type ctx1 with ⟨hsc, hsyn⟩ | ⟨p, hpN, htrig, hsc, hsyn⟩
  · -- no synonym mark was placed by the scan
    have tinv : ctxInv tokens scanned.ctx := by rw [← hscan] at hsc; rw [hsc]; exact inv1
    obtain ⟨W, Wt, Wn, Wl, Wb, hW⟩ :=
      goJ2_master g tokens recur type filled.1 scanned hrec tinv hposc
    rw [← hscan] at hsc hsyn
    rw [hsyn] at hW
    rw [hW]
    have Wt' : W.tokenTypes = ctx1.tokenTypes := by rw [Wt, hsc]
    have hXtt : (markRange W .Count i (j + 1)).tokenTypes = c.tokenTypes := by
      apply listEq_of_getD
      · rw [markRange_length, Wt', len1, hlen]
      · intro m hm
        rw [markRange_length, Wt', len1] at hm
        rw [markRange_tokenTypes_getD]
        by_cases hin : i ≤ m ∧ m < j + 1
        · rw [if_pos ⟨hin.1, hin.2, by rw [Wt', len1]; omega⟩]
          exact (hpre m hin.1 hin.2).symm
        · rw [if_neg (by tauto), Wt']
          exact getD1_out m hin
    have WinvC : W.numUsedTokens = countUsed W.tokenTypes := by
      rw [Wn, Wt]
      exact tinv.2
    refine ⟨hXtt, ?_, ?_, ?_⟩
    · rw [markRange_count W .Count i (j + 1) (by rw [Wt', len1]; omega) WinvC, hXtt]
      exact hinv.2.symm
    · rw [markRange_layers, Wl, hsc, lay1]
    · intro hb
      rw [markRange_beam]
      apply Wb
      rw [hsc, beam1]
      exact hb
  · -- the scan placed a synonym mark at position `p`
    rw [← hscan] at hsc hsyn
    have hpc1 : ctx1.tokenTypes.getD p .Count = .Count := htrig.2.1
    have hpOut : ¬(i ≤ p ∧ p < j + 1) := by
      rintro ⟨h1, h2⟩
      rw [getD1_in p h1 h2] at hpc1
      exact htype hpc1
    have hcp : c.tokenTypes.getD p .Count = .Count := by
      rw [← getD1_out p hpOut]
      exact hpc1
    have slen : scanned.ctx.tokenTypes.length = tokens.length := by
      rw [hsc, markRange_length, len1]
    have sinv : ctxInv tokens scanned.ctx :=
      ⟨slen, by
        rw [hsc]
        exact markRange_count ctx1 .Street p (p + 1) (by rw [len1]; omega) inv1.2⟩
    have sgetD_ne : ∀ m, m ≠ p →
        scanned.ctx.tokenTypes.getD m .Count = ctx1.tokenTypes.getD m .Count := by
      intro m hm
      rw [hsc, markRange_tokenTypes_getD, if_neg (by rintro ⟨a1, a2, _⟩; exact hm (by omega))]
    have slay : scanned.ctx.layers = c.layers := by rw [hsc, markRange_layers, lay1]
    have sbeam : scanned.ctx.beam = c.beam := by rw [hsc, markRange_beam, beam1]
    obtain ⟨W, Wt, Wn, Wl, Wb, hW⟩ :=
      goJ2_master g tokens recur type filled.1 scanned hrec sinv hposc
    rw [hsyn] at hW
    rw [hW]
    have Wlen : W.tokenTypes.length = tokens.length := by rw [Wt, slen]
    have WinvC : W.numUsedTokens = countUsed W.tokenTypes := by
      rw [Wn, Wt]
      exact sinv.2
    have len6 : (markRange W .Count p (p + 1)).tokenTypes.length = tokens.length := by
      rw [markRange_length, Wlen]
    have inv6 : (markRange W .Count p (p + 1)).numUsedTokens
        = countUsed (markRange W .Count p (p + 1)).tokenTypes :=
      markRange_count W .Count p (p + 1) (by rw [Wlen]; omega) WinvC
    have getD6 : ∀ m, m < tokens.length →
        (markRange W .Count p (p + 1)).tokenTypes.getD m .Count
          = if m = p then .Count else scanned.ctx.tokenTypes.getD m .Count := by
      intro m hm
      rw [markRange_tokenTypes_getD]
      by_cases hmp : m = p
      · subst hmp
        rw [if_pos ⟨le_rfl, by omega, by rw [Wlen]; omega⟩, if_pos rfl]
      · rw [if_neg (by rintro ⟨a1, a2, _⟩; exact hmp (by omega)), if_neg hmp, Wt]
    have hXtt : (markRange (markRange W .Count p (p + 1)) .Count i (j + 1)).tokenTypes
        = c.tokenTypes := by
      apply listEq_of_getD
      · rw [markRange_length, len6, hlen]
      · intro m hm
        rw [markRange_length, len6] at hm
        rw [markRange_tokenTypes_getD]
        by_cases hin : i ≤ m ∧ m < j + 1
        · rw [if_pos ⟨hin.1, hin.2, by rw [len6]; omega⟩]
          exact (hpre m hin.1 hin.2).symm
        · rw [if_neg (by tauto), getD6 m hm]
          by_cases hmp : m = p
          · subst hmp
            rw [if_pos rfl]
            exact hcp.symm
          · rw [if_neg hmp, sgetD_ne m hmp]
            exact getD1_out m hin
    refine ⟨hXtt, ?_, ?_, ?_⟩
    · rw [markRange_count (markRange W .Count p (p + 1)) .Count i (j + 1)
        (by rw [len6]; omega) inv6, hXtt]
      exact hinv.2.symm
    · rw [markRange_layers, markRange_layers, Wl, slay]
    · intro hb
      rw [markRange_beam, markRange_beam]
      apply Wb
      rw [sbeam]
      exact hb

theorem goJ_master (g : Geo) (tokens : List String) (recur : Ctx → GeoType → Ctx)
    (type : GeoType) (i : Nat)
    (hrec : ∀ c t, ctxInv tokens c → pres c (recur c t))
    (htype : type ≠ .Count) :
    ∀ (k j : Nat) (ctx : Ctx), ctxInv tokens ctx → i ≤ j →
      (∀ m, i ≤ m → m < j → ctx.tokenTypes.getD m .Count = .Count) →
      pres ctx (goJ g tokens recur type i k j ctx) := by
  intro k
  induction k with
  | zero => intro j ctx _ _ _; exact pres_refl ctx
  | succ k ih =>
    intro j ctx hctx hij hpre
    rw [goJ]
    by_cases hjN : j < tokens.length
    · rw [if_pos hjN]
      by_cases hused : isTokenUsed ctx j = true
      · rw [if_pos hused]
        exact pres_refl ctx
      · rw [if_neg hused]
        have hjc : ctx.tokenTypes.getD j .Count = .Count := isTokenUsed_false hused
        set filled := (if type = .Building then
            fillBuildingsLayer g ctx ((tokens.drop i).take (j + 1 - i)) (List.range' i (j + 1 - i))
          else (fillRegularLayer g ctx.layers type ((tokens.drop i).take (j + 1 - i)), ctx))
          with hfilled
        have hfields : filled.2.tokenTypes = ctx.tokenTypes ∧
            filled.2.numUsedTokens = ctx.numUsedTokens ∧
            filled.2.layers = ctx.layers ∧ filled.2.beam = ctx.beam := by
          rw [hfilled]
          split_ifs
          · exact fillBuildingsLayer_fields ..
          · exact ⟨rfl, rfl, rfl, rfl⟩
        have hpres0 : pres ctx filled.2 :=
          ⟨hfields.1, hfields.2.1, hfields.2.2.1, by rw [hfields.2.2.2]; exact fun hb => hb⟩
        have hinv2 : ctxInv tokens filled.2 := ctxInv_of_pres hpres0 hctx
        have hpre2 : ∀ m, i ≤ m → m < j + 1 → filled.2.tokenTypes.getD m .Count = .Count := by
          intro m h1 h2
          rw [hfields.1]
          rcases Nat.lt_or_ge m j with h | h
          · exact hpre m h1 h
          · have hmj : m = j := by omega
            subst hmj
            exact hjc
        by_cases hemp : filled.1.isEmpty
        · rw [if_pos hemp]
          exact pres_trans hpres0 (ih (j + 1) filled.2 hinv2 (by omega)
            (fun m h1 h2 => hpre2 m h1 h2))
        · rw [if_neg hemp]
          have hcore := goJcore_pres g tokens recur type i j filled hrec htype hinv2 hij hjN hpre2
          have hcinv : ctxInv tokens (goJcore g tokens recur type i j filled) :=
            ctxInv_of_pres hcore hinv2
          have htail := ih (j + 1) (goJcore g tokens recur type i j filled) hcinv (by omega)
            (by
              intro m h1 h2
              rw [hcore.1]
              exact hpre2 m h1 h2)
          exact pres_trans (pres_trans hpres0 hcore) htail
    · rw [if_neg hjN]
      exact pres_refl ctx

theorem foldl_pres_inv {α : Type} (tokens : List String) (f : Ctx → α → Ctx) (L : List α)
    (hstep : ∀ c a, ctxInv tokens c → pres c (f c a)) :
    ∀ c : Ctx, ctxInv tokens c → pres c (L.foldl f c) := by
  induction L with
  | nil => intro c _; exact pres_refl c
  | cons a L ih =>
    intro c hc
    have h1 := hstep c a hc
    exact pres_trans h1 (ih (f c a) (ctxInv_of_pres h1 hc))

/-- Master preservation lemma for `Go`: for every well-formed context, one
call of `go` restores the token types, the used-token counter and the layer
stack exactly, and maintains the beam invariant. -/
theorem go_master (g : Geo) (tokens : List String) :
    ∀ (fuel : Nat) (ctx : Ctx) (type : GeoType), ctxInv tokens ctx →
      pres ctx (go g tokens fuel ctx type) := by
  intro fuel
  induction fuel with
  | zero => intro ctx type _; exact pres_refl ctx
  | succ fuel ih =>
    intro ctx type hctx
    rw [go]
    by_cases h1 : tokens.length = 0
    · rw [if_pos h1]
      exact pres_refl ctx
    · rw [if_neg h1]
      by_cases h2 : allTokensUsed tokens ctx = true
      · rw [if_pos h2]
        exact pres_refl ctx
      · rw [if_neg h2]
        by_cases h3 : type = .Count
        · rw [if_pos h3]
          exact pres_refl ctx
        · rw [if_neg h3]
          have hfold := foldl_pres_inv tokens
            (fun c i => goJ g tokens (fun c2 t2 => go g tokens fuel c2 t2) type i
              (tokens.length - i) i c)
            (List.range tokens.length)
            (by
              intro c a hc
              exact goJ_master g tokens (fun c2 t2 => go g tokens fuel c2 t2) type a
                (fun c2 t2 hc2 => ih c2 t2 hc2) h3 (tokens.length - a) a c hc le_rfl
                (by intro m hm1 hm2; omega))
            ctx hctx
          exact pres_trans hfold (ih _ (nextType type) (ctxInv_of_pres hfold hctx))

/-! ### The result finalizer -/
theorem fillLoop_sublist (tokens : List String) (hn : List Nat) :
    ∀ (entries : List BeamEntry) (seen : List Nat) (acc : List Result),
      ∃ l : List Result,
        List.Sublist l (entries.map fun e => ⟨e.key.osmId, e.value⟩) ∧
        fillLoop tokens hn entries seen acc = acc ++ l := by
  intro entries
  induction entries with
  | nil => intro seen acc; exact ⟨[], List.nil_sublist _, by simp [fillLoop]⟩
  | cons e rest ih =>
    intro seen acc
    rw [fillLoop]
    by_cases h1 : e.key.osmId ∈ seen
    · rw [if_pos h1]
      obtain ⟨l, hs, he⟩ := ih seen acc
      exact ⟨l, hs.cons _, he⟩
    · rw [if_neg h1]
      by_cases h2 : ¬hn.isEmpty = true ∧ ¬isGoodForPotentialHouseNumberAt tokens e.key hn = true
      · rw [if_pos h2]
        obtain ⟨l, hs, he⟩ := ih (e.key.osmId :: seen) acc
        exact ⟨l, hs.cons _, he⟩
      · rw [if_neg h2]
        obtain ⟨l, hs, he⟩ := ih (e.key.osmId :: seen) (acc ++ [⟨e.key.osmId, e.value⟩])
        refine ⟨⟨e.key.osmId, e.value⟩ :: l, hs.cons₂ _, ?_⟩
        rw [he]
        simp

theorem fillResults_eq (results0 : List Result) (tokens : List String) (ctx : Ctx) :
    fillResults results0 tokens ctx =
      (if (fillLoop tokens ctx.houseNumberPositionsInQuery ctx.beam [] []).isEmpty then
        fillLoop tokens ctx.houseNumberPositionsInQuery ctx.beam [] []
      else
        (fillLoop tokens ctx.houseNumberPositionsInQuery ctx.beam [] []).map fun r =>
          Result.mk r.osmId
            (qDiv r.certainty
              (((fillLoop tokens ctx.houseNumberPositionsInQuery ctx.beam [] []).headD
                ⟨0, 0⟩).certainty))) := rfl

theorem fillResults_spec (results0 : List Result) (tokens : List String) (ctx : Ctx)
    (hb : beamInv ctx.beam) :
    (fillResults results0 tokens ctx).length ≤ kMaxResults ∧
    (fillResults results0 tokens ctx).Pairwise (fun a b => b.certainty ≤ a.certainty) ∧
    (fillResults results0 tokens ctx ≠ [] →
      ((fillResults results0 tokens ctx).headD ⟨0, 0⟩).certainty = 1 ∧
      ∀ r ∈ fillResults results0 tokens ctx, 0 < r.certainty ∧ r.certainty ≤ 1) := by
  obtain ⟨hs, hl, hp⟩ := hb
  obtain ⟨l, hsub, he⟩ :=
    fillLoop_sublist tokens ctx.houseNumberPositionsInQuery ctx.beam [] []
  rw [fillResults_eq results0 tokens ctx]
  rw [he]
  simp only [List.nil_append]
  have hlsorted : l.Pairwise (fun a b => b.certainty ≤ a.certainty) := by
    have hmap : (ctx.beam.map fun e => (⟨e.key.osmId, e.value⟩ : Result)).Pairwise
        (fun a b => b.certainty ≤ a.certainty) := by
      rw [List.pairwise_map]
      exact hs
    exact hmap.sublist hsub
  have hllen : l.length ≤ kMaxResults := by
    have := hsub.length_le
    simp only [List.length_map] at this
    omega
  have hlpos : ∀ r ∈ l, 0 < r.certainty := by
    intro r hr
    have hr2 := hsub.subset hr
    obtain ⟨e, hee, rfl⟩ := List.mem_map.mp hr2
    exact hp e hee
  rcases l with _ | ⟨r0, l'⟩
  · simp
  · rw [if_neg (by simp)]
    have hfirst : ((r0 :: l').headD ⟨0, 0⟩).certainty = r0.certainty := rfl
    simp only [hfirst]
    have hr0pos : 0 < r0.certainty := hlpos r0 (List.mem_cons_self _ _)
    have hle : ∀ r ∈ r0 :: l', r.certainty ≤ r0.certainty := by
      intro r hr
      rcases List.mem_cons.mp hr with rfl | hr'
      · exact le_rfl
      · exact (List.pairwise_cons.mp hlsorted).1 r hr'
    refine ⟨?_, ?_, ?_⟩
    · rw [List.length_map]
      exact hllen
    · rw [List.pairwise_map]
      apply hlsorted.imp
      intro a b hab
      simp only [qDiv_eq_div]
      exact (div_le_div_iff_of_pos_right hr0pos).mpr hab
    · intro _
      constructor
      · simp only [List.map_cons, List.headD_cons]
        show qDiv r0.certainty r0.certainty = 1
        rw [qDiv_eq_div]
        exact div_self (ne_of_gt hr0pos)
      · intro r hr
        obtain ⟨r', hr', rfl⟩ := List.mem_map.mp hr
        constructor
        · show 0 < qDiv r'.certainty r0.certainty
          rw [qDiv_eq_div]
          exact div_pos (hlpos r' hr') hr0pos
        · show qDiv r'.certainty r0.certainty ≤ 1
          rw [qDiv_eq_div]
          exact (div_le_one hr0pos).mpr (hle r' hr')

theorem countUsed_replicate (n : Nat) : countUsed (List.replicate n .Count) = 0 := by
  induction n with
  | zero => rfl
  | succ n ih => simp [List.replicate_succ, countUsed_cons, ih]

theorem initCtx_inv (tokens : List String) : ctxInv tokens (initCtx tokens) :=
  ⟨by simp [initCtx], by simp [initCtx, countUsed_replicate]⟩

theorem initCtx_beamInv (tokens : List String) : beamInv (initCtx tokens).beam :=
  ⟨List.Pairwise.nil, by simp [initCtx], by simp [initCtx]⟩

/-! ### Claim theorems -/
/-- C2: for every query, the result list of `processQuery`/`fillResults` has
at most 100 entries and is sorted by non-increasing certainty; if non-empty,
every certainty was divided by the first emitted certainty, so the first
result's certainty is exactly 1 and every certainty lies in (0, 1]. -/
theorem geocoder_C2 (g : Geo) (query : String) (results0 : List Result) :
    (processQuery g query results0).length ≤ 100 ∧
    (processQuery g query results0).Pairwise (fun a b => b.certainty ≤ a.certainty) ∧
    (processQuery g query results0 ≠ [] →
      ((processQuery g query results0).headD ⟨0, 0⟩).certainty = 1 ∧
      ∀ r ∈ processQuery g query results0, 0 < r.certainty ∧ r.certainty ≤ 1) := by
  unfold processQuery
  have hinv := initCtx_inv (g.tokenize query)
  have hpres := go_master g (g.tokenize query) 9 (initCtx (g.tokenize query)) .Country hinv
  have hbeam : beamInv (go g (g.tokenize query) 9 (initCtx (g.tokenize query)) .Country).beam :=
    hpres.2.2.2 (initCtx_beamInv _)
  have hmain := fillResults_spec results0 (g.tokenize query) _ hbeam
  simpa [kMaxResults] using hmain

theorem geocoder_C2_witness :
    processQuery envFrance "france" [] ≠ [] ∧
    ((processQuery envFrance "france" []).headD ⟨0, 0⟩).certainty = 1 :=
  ⟨by decide, ((geocoder_C2 envFrance "france" []).2.2 (by decide)).1⟩

/-- C4: token marking is balanced — `go` restores `tokenTypes` and
`numUsedTokens` exactly, the invariant `numUsedTokens = count(tokenTypes[i]
≠ Count)` holds after the call, and `MarkToken` preserves that invariant at
every in-range index. -/
theorem geocoder_C4 (g : Geo) (tokens : List String) (fuel : Nat) (ctx : Ctx) (type : GeoType)
    (hlen : ctx.tokenTypes.length = tokens.length)
    (hinv : ctx.numUsedTokens = countUsed ctx.tokenTypes) :
    (go g tokens fuel ctx type).tokenTypes = ctx.tokenTypes ∧
    (go g tokens fuel ctx type).numUsedTokens = ctx.numUsedTokens ∧
    (go g tokens fuel ctx type).numUsedTokens
      = countUsed (go g tokens fuel ctx type).tokenTypes ∧
    (∀ (c : Ctx) (id : Nat) (t : GeoType), id < c.tokenTypes.length →
      c.numUsedTokens = countUsed c.tokenTypes →
      (markToken c id t).numUsedTokens = countUsed (markToken c id t).tokenTypes) := by
  have hp := go_master g tokens fuel ctx type ⟨hlen, hinv⟩
  refine ⟨hp.1, hp.2.1, ?_, fun c id t h hc => markToken_count c id t h hc⟩
  rw [hp.2.1, hp.1]
  exact hinv

theorem geocoder_C4_witness :
    (go envFrance ["france"] 9 (initCtx ["france"]) .Country).tokenTypes
      = (initCtx ["france"]).tokenTypes ∧
    (go envFrance ["france"] 9 (initCtx ["france"]) .Country).numUsedTokens = 0 :=
  ⟨(geocoder_C4 envFrance ["france"] 9 (initCtx ["france"]) .Country (by decide) (by decide)).1,
    (geocoder_C4 envFrance ["france"] 9 (initCtx ["france"]) .Country (by decide) (by decide)).2.1⟩

/-- C7: `go` returns its context unchanged whenever the token count is 0,
all tokens are used, or the type is the `Count` sentinel; `processQuery` on
a query with zero tokens after normalization returns the empty list. -/
theorem geocoder_C7 (g : Geo) :
    (∀ (tokens : List String) (fuel : Nat) (ctx : Ctx) (type : GeoType),
      tokens.length = 0 ∨ allTokensUsed tokens ctx = true ∨ type = .Count →
      go g tokens fuel ctx type = ctx) ∧
    (∀ (query : String) (results0 : List Result), g.tokenize query = [] →
      processQuery g query results0 = []) := by
  constructor
  · intro tokens fuel ctx type h
    cases fuel with
    | zero => rfl
    | succ fuel =>
      rw [go]
      by_cases h0 : tokens.length = 0
      · rw [if_pos h0]
      · rw [if_neg h0]
        by_cases h1 : allTokensUsed tokens ctx = true
        · rw [if_pos h1]
        · rw [if_neg h1]
          rcases h with h | h | h
          · exact absurd h h0
          · exact absurd h h1
          · rw [if_pos h]
  · intro query results0 htok
    show fillResults results0 (g.tokenize query)
      (go g (g.tokenize query) 9 (initCtx (g.tokenize query)) .Country) = []
    rw [htok]
    rfl

theorem geocoder_C7_witness : processQuery envFrance "" [] = [] :=
  (geocoder_C7 envFrance).2 "" [] (by decide)

/-- C10: the output of `processQuery` does not depend on the prior contents
of the caller-supplied results vector, because `FillResults` clears it. -/
theorem geocoder_C10 (g : Geo) (query : String) (results0 results0' : List Result) :
    processQuery g query results0 = processQuery g query results0' := rfl

/-- C5: `fillRegularLayer` includes a DocId iff the document matches the
subquery, its type equals the level, and the layer stack is empty or some
entry of the top layer is a parent of it; and the result depends only on
the top of the layer stack. -/
theorem geocoder_C5 (g : Geo) :
    (∀ (layers : List Layer) (type : GeoType) (subquery : List String) (d : Nat),
      d ∈ fillRegularLayer g layers type subquery ↔
        (d < g.docs.length ∧ docMatches subquery (getDoc g d) = true ∧
          (getDoc g d).type = type ∧
          (layers = [] ∨ ∃ top, layers.getLast? = some top ∧
            ∃ docId ∈ top.entries, isParentTo g (getDoc g docId) (getDoc g d) = true))) ∧
    (∀ (layers₁ layers₂ : List Layer) (type : GeoType) (subquery : List String),
      layers₁ ≠ [] → layers₂ ≠ [] → layers₁.getLast? = layers₂.getLast? →
      fillRegularLayer g layers₁ type subquery = fillRegularLayer g layers₂ type subquery) := by
  constructor
  · intro layers type subquery d
    rw [fillRegularLayer, List.mem_filter, List.mem_range]
    simp only [decide_eq_true_eq]
    constructor
    · rintro ⟨hd, hm, ht, hrest⟩
      refine ⟨hd, hm, ht, ?_⟩
      rcases hrest with hemp | hpar
      · exact Or.inl (List.isEmpty_iff.mp hemp)
      · rcases hl : layers.getLast? with _ | top
        · rw [hasParent, hl] at hpar
          exact absurd hpar (by simp)
        · refine Or.inr ⟨top, rfl, ?_⟩
          rw [hasParent, hl] at hpar
          obtain ⟨dd, hdd, hdp⟩ := List.any_eq_true.mp hpar
          exact ⟨dd, hdd, hdp⟩
    · rintro ⟨hd, hm, ht, hrest⟩
      refine ⟨hd, hm, ht, ?_⟩
      rcases hrest with rfl | ⟨top, hl, dd, hdd, hdp⟩
      · exact Or.inl rfl
      · refine Or.inr ?_
        rw [hasParent, hl]
        exact List.any_eq_true.mpr ⟨dd, hdd, hdp⟩
  · intro layers₁ layers₂ type subquery h1 h2 hlast
    rw [fillRegularLayer, fillRegularLayer]
    apply List.filter_congr
    intro d _
    have he1 : layers₁.isEmpty = false := by
      rcases layers₁ with _ | _
      · exact absurd rfl h1
      · rfl
    have he2 : layers₂.isEmpty = false := by
      rcases layers₂ with _ | _
      · exact absurd rfl h2
      · rfl
    have hh : hasParent g layers₁ (getDoc g d) = hasParent g layers₂ (getDoc g d) := by
      rw [hasParent, hasParent, hlast]
    simp [he1, he2, hh]

theorem geocoder_C5_witness : 0 ∈ fillRegularLayer envFrance [] .Country ["france"] :=
  ((geocoder_C5 envFrance).1 [] .Country ["france"] 0).mpr
    ⟨by decide, by decide, by decide, Or.inl rfl⟩

/-- C6: `fillBuildingsLayer` adds no entry and changes nothing when the
layer stack is empty or the space-joined subquery does not look like a
house number; in the concrete scenario "42 paris" the bare house number
"42" never yields the Building result (osmId 4). -/
theorem geocoder_C6 :
    (∀ (g : Geo) (ctx : Ctx) (subquery : List String) (ids : List Nat),
      ctx.layers = [] → fillBuildingsLayer g ctx subquery ids = ([], ctx)) ∧
    (∀ (g : Geo) (ctx : Ctx) (subquery : List String) (ids : List Nat),
      g.looksLikeHouseNumber (makeHouseNumber subquery) false = false →
      fillBuildingsLayer g ctx subquery ids = ([], ctx)) ∧
    (processQuery env42 "42 paris" []).all (fun r => r.osmId ≠ 4) = true := by
  refine ⟨?_, ?_, by decide⟩
  · intro g ctx sub ids h
    rw [fillBuildingsLayer, if_pos (by simp [h])]
  · intro g ctx sub ids h
    rw [fillBuildingsLayer]
    by_cases h0 : ctx.layers.isEmpty
    · rw [if_pos h0]
    · rw [if_neg h0, if_pos (by simp [h])]

theorem geocoder_C6_witness :
    fillBuildingsLayer env42 (initCtx ["42", "paris"]) ["42"] [0]
      = ([], initCtx ["42", "paris"]) :=
  geocoder_C6.1 env42 (initCtx ["42", "paris"]) ["42"] [0] rfl

theorem sumWeightsOver_mono (tt tt' : List GeoType) (l : List Nat)
    (h : ∀ k ∈ l, tt'.getD k .Count = tt.getD k .Count ∨ tt.getD k .Count = .Count) :
    sumWeightsOver tt l ≤ sumWeightsOver tt' l := by
  apply List.sum_le_sum
  intro k hk
  rcases h k hk with he | hc
  · rw [he]
  · rw [hc]
    calc getWeight .Count = 0 := rfl
    _ ≤ getWeight (tt'.getD k .Count) := getWeight_nonneg _

/-- C8: certainty is monotone in specificity — marking additional unassigned
positions (in particular a Building range on top of a standing Street mark)
never decreases the certainty computed by the scoring loop. -/
theorem geocoder_C8 (g : Geo) (tokens : List String) (type' : GeoType) (ctx ctx' : Ctx)
    (hlen : ctx'.tokenTypes.length = ctx.tokenTypes.length)
    (href : ∀ k, k < ctx.tokenTypes.length →
      ctx'.tokenTypes.getD k .Count = ctx.tokenTypes.getD k .Count ∨
        ctx.tokenTypes.getD k .Count = .Count)
    (hstreet : .Street ∈ ctx.tokenTypes) :
    (goScan g tokens .Street ctx).certainty ≤ (goScan g tokens type' ctx').certainty ∧
    (∀ i' j', j' ≤ ctx.tokenTypes.length →
      (∀ k, i' ≤ k → k < j' → ctx.tokenTypes.getD k .Count = .Count) →
      (goScan g tokens .Street ctx).certainty
        ≤ (goScan g tokens .Building (markRange ctx .Building i' j')).certainty) := by
  have hout : ∀ k, ¬ k < ctx.tokenTypes.length →
      ctx.tokenTypes.getD k .Count = .Count := by
    intro k hk
    exact List.getD_eq_default _ _ (by omega)
  constructor
  · rw [goScan_certainty, goScan_certainty]
    apply sumWeightsOver_mono
    intro k _
    by_cases hklen : k < ctx.tokenTypes.length
    · exact href k hklen
    · exact Or.inr (hout k hklen)
  · intro i' j' hj' hcount
    rw [goScan_certainty, goScan_certainty]
    apply sumWeightsOver_mono
    intro k _
    by_cases hklen : k < ctx.tokenTypes.length
    · by_cases hin : i' ≤ k ∧ k < j'
      · exact Or.inr (hcount k hin.1 hin.2)
      · left
        rw [markRange_tokenTypes_getD, if_neg (by tauto)]
    · exact Or.inr (hout k hklen)

theorem geocoder_C8_witness :
    (goScan envFrance ["a", "b"] .Street ⟨[.Street, .Count], 1, [], [], []⟩).certainty
      ≤ (goScan envFrance ["a", "b"] .Building
          (markRange ⟨[.Street, .Count], 1, [], [], []⟩ .Building 1 2)).certainty :=
  (geocoder_C8 envFrance ["a", "b"] .Building ⟨[.Street, .Count], 1, [], [], []⟩
      ⟨[.Street, .Count], 1, [], [], []⟩ rfl
      (fun k _ => Or.inl rfl) (by decide)).2 1 2 (by decide)
    (by
      intro k h1 h2
      have hk : k = 1 := by omega
      subst hk
      rfl)

theorem first_decomp_unique {α : Type} (P : α → Prop) :
    ∀ (l₁ m₁ : List α) (l₂ m₂ : List α) (p q : α),
      l₁ ++ p :: l₂ = m₁ ++ q :: m₂ → (∀ x ∈ l₁, ¬P x) → (∀ x ∈ m₁, ¬P x) →
      P p → P q → p = q := by
  intro l₁
  induction l₁ with
  | nil =>
    intro m₁ l₂ m₂ p q h h₁ h₂ hp hq
    cases m₁ with
    | nil =>
      simp only [List.nil_append, List.cons.injEq] at h
      exact h.1
    | cons b m =>
      simp only [List.nil_append, List.cons_append, List.cons.injEq] at h
      exact absurd (h.1 ▸ hp) (h₂ b (List.mem_cons_self _ _))
  | cons a l ih =>
    intro m₁ l₂ m₂ p q h h₁ h₂ hp hq
    cases m₁ with
    | nil =>
      simp only [List.nil_append, List.cons_append] at h
      injection h with h1 _
      exact absurd (h1 ▸ hq) (h₁ a (List.mem_cons_self _ _))
    | cons b m =>
      simp only [List.cons_append] at h
      injection h with _ htl
      exact ih m l₂ m₂ p q htl (fun x hx => h₁ x (List.mem_cons_of_mem _ hx))
        (fun x hx => h₂ x (List.mem_cons_of_mem _ hx)) hp hq

/-- C1 (amended): at Street level, when the scoring loop reaches the first
still-unassigned position `p` whose token is a street synonym, it
scope-marks `[p, p+1)` as `Street` — but each position's type is read before
any mark at that position, so the certainty, tokenIds and allTypes recorded
at this Street level are computed from the pre-mark token types: `p`
contributes weight 0 and is excluded from tokenIds/allTypes; the mark only
affects the deeper recursion levels. -/
theorem geocoder_C1_amended (g : Geo) (tokens : List String) (ctx : Ctx)
    (l₁ l₂ : List Nat) (p : Nat)
    (hdecomp : List.range tokens.length = l₁ ++ p :: l₂)
    (hfirst : ∀ q ∈ l₁, ¬trig g tokens .Street ctx.tokenTypes q)
    (htrig : trig g tokens .Street ctx.tokenTypes p) :
    (goScan g tokens .Street ctx).syn = some p ∧
    (goScan g tokens .Street ctx).ctx = markRange ctx .Street p (p + 1) ∧
    (goScan g tokens .Street ctx).certainty
      = sumWeightsOver ctx.tokenTypes (List.range tokens.length) ∧
    (goScan g tokens .Street ctx).tokenIds
      = usedFilter ctx.tokenTypes (List.range tokens.length) ∧
    p ∉ (goScan g tokens .Street ctx).tokenIds := by
  have hchar := goScanAux_none g tokens .Street (List.range tokens.length) ctx 0 [] []
    (List.nodup_range _)
  obtain ⟨hc, hi, _, hd⟩ := hchar
  have hpmem : p ∈ List.range tokens.length := by
    rw [hdecomp]
    exact List.mem_append_right _ (List.mem_cons_self _ _)
  rcases hd with ⟨hall, _, _⟩ | ⟨m₁, q, m₂, heq, hfirst', htq, hctx, hsyn⟩
  · exact absurd htrig (hall p hpmem)
  · have hpq : p = q :=
      first_decomp_unique (trig g tokens .Street ctx.tokenTypes) l₁ m₁ l₂ m₂ p q
        (hdecomp.symm.trans heq) hfirst hfirst' htrig htq
    subst hpq
    have hnotin : p ∉ usedFilter ctx.tokenTypes (List.range tokens.length) := by
      intro hmem
      have := List.of_mem_filter hmem
      rw [decide_eq_true_eq] at this
      exact this htrig.2.1
    refine ⟨by rw [goScan]; exact hsyn, by rw [goScan]; exact hctx, ?_, ?_, ?_⟩
    · rw [goScan, hc]
      ring
    · rw [goScan, hi]
      simp
    · rw [goScan, hi]
      simpa using hnotin

theorem geocoder_C1_witness :
    (goScan envC1 ["rivoli", "ave"] .Street
        (markRange (initCtx ["rivoli", "ave"]) .Street 0 1)).syn = some 1 ∧
    1 ∉ (goScan envC1 ["rivoli", "ave"] .Street
        (markRange (initCtx ["rivoli", "ave"]) .Street 0 1)).tokenIds := by
  have h := geocoder_C1_amended envC1 ["rivoli", "ave"]
    (markRange (initCtx ["rivoli", "ave"]) .Street 0 1) [0] [] 1 (by decide)
    (by
      intro q hq
      have hq0 : q = 0 := by simpa using hq
      subst hq0
      intro ht
      exact absurd ht.2.2 (by decide))
    (by
      refine ⟨rfl, by decide, by decide⟩)
  exact ⟨h.1, h.2.2.2.2⟩

/-- C1 (counterexample to the claim as stated): in `envC1` with query tokens
"rivoli ave", the Street-level frame records the street with certainty 1 and
tokenIds `[0]`, although position 1 is a still-unassigned street-synonym
position — the recorded certainty does not include the Street weight for the
synonym position and tokenIds/allTypes do not include it. -/
theorem geocoder_C1_counterexample :
    (go envC1 ["rivoli", "ave"] 9 (initCtx ["rivoli", "ave"]) .Country).beam
      = [⟨⟨7, .Street, [0], [.Street]⟩, 1⟩] ∧
    envC1.isStreetSynonym (["rivoli", "ave"].getD 1 "") = true ∧
    (1 : Nat) ∉ [0] ∧ (1 : ℚ) ≠ getWeight .Street + getWeight .Street := by
  refine ⟨by decide, by decide, by decide, ?_⟩
  show (1 : ℚ) ≠ 1 + 1
  norm_num

theorem includes_iff_subset :
    ∀ (a b : List Nat), a.Pairwise (· < ·) → b.Pairwise (· < ·) →
      (includes a b = true ↔ ∀ x ∈ b, x ∈ a) := by
  intro a
  induction a with
  | nil =>
    intro b _ _
    cases b with
    | nil => simp [includes]
    | cons y ys =>
      rw [show includes [] (y :: ys) = false from rfl]
      simp only [Bool.false_eq_true, false_iff]
      intro hsub
      exact absurd (hsub y (List.mem_cons_self _ _)) (List.not_mem_nil y)
  | cons x xs iha =>
    intro b hsa hsb
    cases b with
    | nil => simp [includes]
    | cons y ys =>
      rw [includes]
      obtain ⟨hxlt, hxs⟩ := List.pairwise_cons.mp hsa
      obtain ⟨hylt, hys⟩ := List.pairwise_cons.mp hsb
      split_ifs with h1 h2
      · -- y < x : every element of x :: xs is ≥ x > y, so y cannot be found
        simp only [false_iff]
        intro hsub
        have hy := hsub y (List.mem_cons_self _ _)
        rcases List.mem_cons.mp hy with rfl | hy'
        · omega
        · exact absurd h1 (by have := hxlt y hy'; omega)
      · -- x < y : drop x
        rw [iha (y :: ys) hxs hsb]
        constructor
        · intro hsub z hz
          exact List.mem_cons_of_mem _ (hsub z hz)
        · intro hsub z hz
          rcases List.mem_cons.mp (hsub z hz) with rfl | hz'
          · exfalso
            rcases List.mem_cons.mp hz with rfl | hz2
            · omega
            · have := hylt z hz2
              omega
          · exact hz'
      · -- x = y : match both heads
        have hxy : x = y := by omega
        subst hxy
        rw [iha ys hxs hys]
        constructor
        · intro hsub z hz
          rcases List.mem_cons.mp hz with rfl | hz'
          · exact List.mem_cons_self _ _
          · exact List.mem_cons_of_mem _ (hsub z hz')
        · intro hsub z hz
          have hzy := hylt z hz
          rcases List.mem_cons.mp (hsub z (List.mem_cons_of_mem _ hz)) with rfl | hz'
          · omega
          · exact hz'

theorem isGood_iff (tokens : List String) (key : BeamKey) (hn : List Nat)
    (hkey : key.tokenIds.Pairwise (· < ·)) (hhn : hn.Pairwise (· < ·)) :
    isGoodForPotentialHouseNumberAt tokens key hn = true ↔ isGoodSpec tokens key hn := by
  have hb : isBuildingWithAddress key = true ↔
      (key.type = .Building ∧
        (∃ t ∈ key.allTypes, t = .Region ∨ t = .Subregion ∨ t = .Locality) ∧
        .Street ∈ key.allTypes ∧ .Building ∈ key.allTypes) := by
    rw [isBuildingWithAddress]
    simp
  have hl : hasLocalityOrRegion key = true ↔
      (∃ t ∈ key.allTypes, t = .Region ∨ t = .Subregion ∨ t = .Locality) := by
    rw [hasLocalityOrRegion]
    simp
  have hc : containsTokenIds key hn = true ↔ ∀ x ∈ hn, x ∈ key.tokenIds := by
    rw [containsTokenIds]
    exact includes_iff_subset key.tokenIds hn hkey hhn
  rw [isGoodForPotentialHouseNumberAt, isGoodSpec]
  split_ifs with h1 h2 h3
  · exact iff_of_true rfl (Or.inl h1)
  · exact iff_of_true rfl (Or.inr (Or.inl (hb.mp h2)))
  · exact iff_of_true rfl (Or.inr (Or.inr ⟨hl.mp h3.1, hc.mp h3.2⟩))
  · apply iff_of_false (by simp)
    rintro (h | h | h)
    · exact h1 h
    · exact h2 (hb.mpr h)
    · exact h3 ⟨hl.mpr h.1, hc.mpr h.2⟩

theorem fillLoop_eq_emitSpec (tokens : List String) (hn : List Nat)
    (hhn : hn.Pairwise (· < ·)) :
    ∀ (rest prev : List BeamEntry) (seen : List Nat) (acc : List Result),
      (∀ e ∈ rest, e.key.tokenIds.Pairwise (· < ·)) →
      (∀ id, id ∈ seen ↔ ∃ e ∈ prev, e.key.osmId = id) →
      fillLoop tokens hn rest seen acc = acc ++ emitSpec tokens hn prev rest := by
  intro rest
  induction rest with
  | nil => intro prev seen acc _ _; simp [fillLoop, emitSpec]
  | cons e rest ih =>
    intro prev seen acc hsorted hseen
    rw [fillLoop, emitSpec]
    have hsorted' : ∀ e' ∈ rest, e'.key.tokenIds.Pairwise (· < ·) :=
      fun e' he' => hsorted e' (List.mem_cons_of_mem _ he')
    have hseen' : ∀ id, id ∈ e.key.osmId :: seen ↔ ∃ e' ∈ prev ++ [e], e'.key.osmId = id := by
      intro id
      simp only [List.mem_cons, List.mem_append, hseen id]
      constructor
      · rintro (rfl | ⟨e', he', rfl⟩)
        · exact ⟨e, Or.inr (Or.inl rfl), rfl⟩
        · exact ⟨e', Or.inl he', rfl⟩
      · rintro ⟨e', he' | rfl | hf, rfl⟩
        · exact Or.inr ⟨e', he', rfl⟩
        · exact Or.inl rfl
        · exact absurd hf (List.not_mem_nil _)
    by_cases hdup : e.key.osmId ∈ seen
    · rw [if_pos hdup]
      obtain ⟨e', he', hid⟩ := (hseen e.key.osmId).mp hdup
      rw [if_neg (by rintro ⟨hall, _⟩; exact hall e' he' hid)]
      apply ih (prev ++ [e]) seen acc hsorted'
      intro id
      rw [hseen id]
      constructor
      · rintro ⟨e2, he2, rfl⟩
        exact ⟨e2, List.mem_append_left _ he2, rfl⟩
      · rintro ⟨e2, he2, rfl⟩
        rcases List.mem_append.mp he2 with h | h
        · exact ⟨e2, h, rfl⟩
        · have he2e : e2 = e := by simpa using h
          subst he2e
          exact (hseen e2.key.osmId).mp hdup
    · rw [if_neg hdup]
      have hnotprev : ∀ e' ∈ prev, e'.key.osmId ≠ e.key.osmId := by
        intro e' he' hid
        exact hdup ((hseen e.key.osmId).mpr ⟨e', he', hid⟩)
      by_cases hflt : ¬hn.isEmpty = true ∧
          ¬isGoodForPotentialHouseNumberAt tokens e.key hn = true
      · rw [if_pos hflt]
        rw [if_neg (by
          rintro ⟨_, himp⟩
          have hne : hn ≠ [] := by
            intro hce
            subst hce
            exact hflt.1 rfl
          exact hflt.2 ((isGood_iff tokens e.key hn (hsorted e (List.mem_cons_self _ _))
            hhn).mpr (himp hne)))]
        exact ih (prev ++ [e]) (e.key.osmId :: seen) acc hsorted' hseen'
      · rw [if_neg hflt]
        rw [if_pos ⟨hnotprev, by
          intro hne
          rcases not_and_or.mp hflt with h | h
          · exact absurd (List.isEmpty_iff.mp (not_not.mp h)) hne
          · exact (isGood_iff tokens e.key hn (hsorted e (List.mem_cons_self _ _))
              hhn).mp (not_not.mp h)⟩]
        rw [ih (prev ++ [e]) (e.key.osmId :: seen) (acc ++ [Result.mk e.key.osmId e.value])
          hsorted' hseen']
        simp

theorem fillLoop_nodup (tokens : List String) (hn : List Nat) :
    ∀ (rest : List BeamEntry) (seen : List Nat) (acc : List Result),
      (∀ r ∈ acc, r.osmId ∈ seen) →
      acc.Pairwise (fun a b => a.osmId ≠ b.osmId) →
      (fillLoop tokens hn rest seen acc).Pairwise (fun a b => a.osmId ≠ b.osmId) := by
  intro rest
  induction rest with
  | nil => intro seen acc _ h; simpa [fillLoop] using h
  | cons e rest ih =>
    intro seen acc hmem hnd
    rw [fillLoop]
    by_cases h1 : e.key.osmId ∈ seen
    · rw [if_pos h1]
      exact ih seen acc hmem hnd
    · rw [if_neg h1]
      by_cases h2 : ¬hn.isEmpty = true ∧
          ¬isGoodForPotentialHouseNumberAt tokens e.key hn = true
      · rw [if_pos h2]
        exact ih _ acc (fun r hr => List.mem_cons_of_mem _ (hmem r hr)) hnd
      · rw [if_neg h2]
        refine ih (e.key.osmId :: seen) (acc ++ [Result.mk e.key.osmId e.value]) ?_ ?_
        · intro r hr
          rcases List.mem_append.mp hr with h | h
          · exact List.mem_cons_of_mem _ (hmem r h)
          · have hre : r = Result.mk e.key.osmId e.value := by simpa using h
            subst hre
            exact List.mem_cons_self _ _
        · rw [List.pairwise_append]
          refine ⟨hnd, by simp, ?_⟩
          intro a ha b hb
          have hbe : b = ⟨e.key.osmId, e.value⟩ := by simpa using hb
          subst hbe
          intro hco
          apply h1
          have hco' : a.osmId = e.key.osmId := hco
          rw [← hco']
          exact hmem a ha

/-- C3: the emission loop of `FillResults` emits a beam entry iff no
earlier-iterated entry had the same osmId (so the output has no duplicate
osmId) and, when the house-number set is non-empty, the key passes
`IsGoodForPotentialHouseNumberAt`; and that filter holds iff the key used
every query token, or is a Building with a locality-or-region plus Street
plus Building among its types, or has a locality-or-region and tokenIds ⊇
houseNumberPositions. -/
theorem geocoder_C3 (tokens : List String) :
    (∀ (key : BeamKey) (hn : List Nat), key.tokenIds.Pairwise (· < ·) →
      hn.Pairwise (· < ·) →
      (isGoodForPotentialHouseNumberAt tokens key hn = true ↔ isGoodSpec tokens key hn)) ∧
    (∀ (entries : List BeamEntry) (hn : List Nat), hn.Pairwise (· < ·) →
      (∀ e ∈ entries, e.key.tokenIds.Pairwise (· < ·)) →
      fillLoop tokens hn entries [] [] = emitSpec tokens hn [] entries) ∧
    (∀ (entries : List BeamEntry) (hn seen : List Nat),
      (fillLoop tokens hn entries seen []).Pairwise (fun a b => a.osmId ≠ b.osmId)) :=
  ⟨fun key hn h1 h2 => isGood_iff tokens key hn h1 h2,
   fun entries hn hhn hs => by
     have h := fillLoop_eq_emitSpec tokens hn hhn entries [] [] [] hs (by simp)
     simpa using h,
   fun entries hn seen =>
     fillLoop_nodup tokens hn entries seen [] (by simp) List.Pairwise.nil⟩

theorem geocoder_C3_witness :
    isGoodForPotentialHouseNumberAt ["a"]
      ⟨1, .Building, [0], [.Locality, .Street, .Building]⟩ [0] = true :=
  ((geocoder_C3 ["a"]).1 ⟨1, .Building, [0], [.Locality, .Street, .Building]⟩ [0]
    (by decide) (by decide)).mpr (Or.inl rfl)

theorem goScan_ctx_length (g : Geo) (tokens : List String) (type : GeoType) (ctx : Ctx) :
    (goScan g tokens type ctx).ctx.tokenTypes.length = ctx.tokenTypes.length := by
  rcases goScan_ctx_cases g tokens type ctx with ⟨h, _⟩ | ⟨p, _, _, h, _⟩
  · rw [h]
  · rw [h, markRange_length]

theorem goJ2_length (g : Geo) (tokens : List String) (recur : Ctx → GeoType → Ctx)
    (type : GeoType) (entries : List Nat) (scanned : ScanResult)
    (hrecl : ∀ c t, (recur c t).tokenTypes.length = c.tokenTypes.length) :
    (goJ2 g tokens recur type entries scanned).tokenTypes.length
      = scanned.ctx.tokenTypes.length := by
  obtain ⟨t2, _, _, _, _⟩ := foldAddResult_fields g scanned.certainty type
    scanned.tokenIds scanned.allTypes entries scanned.ctx
  rw [goJ2]
  set ctx2 := entries.foldl
    (fun c docId =>
      addResult c (getDoc g docId).osmId scanned.certainty type
        scanned.tokenIds scanned.allTypes)
    scanned.ctx with hctx2
  set ctx3 : Ctx := { ctx2 with layers := ctx2.layers ++ [⟨type, entries⟩] } with hctx3
  set ctx4 := recur ctx3 (nextType type) with hctx4
  have h4 : ctx4.tokenTypes.length = scanned.ctx.tokenTypes.length := by
    rw [hctx4, hrecl]
    show ctx2.tokenTypes.length = _
    rw [t2]
  cases hsyn : scanned.syn with
  | none => exact h4
  | some p =>
    rw [markRange_length]
    exact h4

theorem goJcore_length (g : Geo) (tokens : List String) (recur : Ctx → GeoType → Ctx)
    (type : GeoType) (i j : Nat) (filled : List Nat × Ctx)
    (hrecl : ∀ c t, (recur c t).tokenTypes.length = c.tokenTypes.length) :
    (goJcore g tokens recur type i j filled).tokenTypes.length
      = filled.2.tokenTypes.length := by
  rw [goJcore, markRange_length, goJ2_length g tokens recur type _ _ hrecl,
    goScan_ctx_length, markRange_length]

theorem goJ_length (g : Geo) (tokens : List String) (recur : Ctx → GeoType → Ctx)
    (type : GeoType) (i : Nat)
    (hrecl : ∀ c t, (recur c t).tokenTypes.length = c.tokenTypes.length) :
    ∀ (k j : Nat) (ctx : Ctx),
      (goJ g tokens recur type i k j ctx).tokenTypes.length = ctx.tokenTypes.length := by
  intro k
  induction k with
  | zero => intro j ctx; rfl
  | succ k ih =>
    intro j ctx
    rw [goJ]
    by_cases h1 : j < tokens.length
    · rw [if_pos h1]
      by_cases h2 : isTokenUsed ctx j = true
      · rw [if_pos h2]
      · rw [if_neg h2]
        set filled := (if type = .Building then
            fillBuildingsLayer g ctx ((tokens.drop i).take (j + 1 - i))
              (List.range' i (j + 1 - i))
          else (fillRegularLayer g ctx.layers type ((tokens.drop i).take (j + 1 - i)), ctx))
          with hfilled
        have hf2 : filled.2.tokenTypes.length = ctx.tokenTypes.length := by
          rw [hfilled]
          split_ifs
          · rw [(fillBuildingsLayer_fields ..).1]
          · rfl
        by_cases h3 : filled.1.isEmpty
        · rw [if_pos h3, ih, hf2]
        · rw [if_neg h3, ih, goJcore_length g tokens recur type i j filled hrecl, hf2]
    · rw [if_neg h1]

theorem foldl_tt_length {α : Type} (f : Ctx → α → Ctx) (L : List α)
    (hstep : ∀ c a, (f c a).tokenTypes.length = c.tokenTypes.length) :
    ∀ c : Ctx, (L.foldl f c).tokenTypes.length = c.tokenTypes.length := by
  induction L with
  | nil => intro c; rfl
  | cons a L ih => intro c; rw [List.foldl_cons, ih, hstep]

theorem go_length (g : Geo) (tokens : List String) :
    ∀ (fuel : Nat) (ctx : Ctx) (type : GeoType),
      (go g tokens fuel ctx type).tokenTypes.length = ctx.tokenTypes.length := by
  intro fuel
  induction fuel with
  | zero => intro ctx type; rfl
  | succ fuel ih =>
    intro ctx type
    rw [go]
    by_cases h1 : tokens.length = 0
    · rw [if_pos h1]
    · rw [if_neg h1]
      by_cases h2 : allTokensUsed tokens ctx = true
      · rw [if_pos h2]
      · rw [if_neg h2]
        by_cases h3 : type = .Count
        · rw [if_pos h3]
        · rw [if_neg h3]
          rw [ih]
          exact foldl_tt_length _ _
            (fun c a => goJ_length g tokens _ type a (fun c2 t2 => ih c2 t2)
              (tokens.length - a) a c) ctx

/-! ### Equivalence of the checked interpreter with the pure model -/
theorem loopMarkC_eq (tokens : List String) (t : GeoType) (l r : Nat) (ctx : Ctx)
    (hr : r ≤ tokens.length) :
    loopMarkC tokens t l r ctx = some (markRange ctx t l r) := by
  rw [loopMarkC, markRange]
  have key : ∀ (L : List Nat), (∀ k ∈ L, k < tokens.length) → ∀ c : Ctx,
      L.foldl (fun c? k => c?.bind fun c => markTokenC tokens c k t) (some c)
        = some (L.foldl (fun c k => markToken c k t) c) := by
    intro L
    induction L with
    | nil => intro _ c; rfl
    | cons a L ih =>
      intro hmem c
      simp only [List.foldl_cons, Option.some_bind]
      rw [markTokenC, if_pos (hmem a (List.mem_cons_self a L))]
      exact ih (fun k hk => hmem k (List.mem_cons_of_mem a hk)) (markToken c a t)
  apply key
  intro k hk
  have := List.mem_range'_1.mp hk
  omega

theorem scopedMarkC_eq (tokens : List String) (ctx : Ctx) (t : GeoType) (l r : Nat)
    (hl : l ≤ r) (hr : r ≤ tokens.length) :
    scopedMarkC tokens ctx t l r = some (markRange ctx t l r) := by
  rw [scopedMarkC, if_pos ⟨hl, hr⟩]
  exact loopMarkC_eq tokens t l r ctx hr

theorem goScanAuxC_eq (g : Geo) (tokens : List String) (type : GeoType) (l : List Nat) :
    ∀ (ctx : Ctx) (syn : Option Nat) (cert : ℚ) (ids : List Nat) (tys : List GeoType),
      (∀ k ∈ l, k < tokens.length) → ctx.tokenTypes.length = tokens.length →
      goScanAuxC g tokens type l ctx syn cert ids tys
        = some (goScanAux g tokens type l ctx syn cert ids tys) := by
  induction l with
  | nil => intro ctx syn cert ids tys _ _; rfl
  | cons p rest ih =>
    intro ctx syn cert ids tys hmem hlen
    have hp : p < tokens.length := hmem p (List.mem_cons_self p rest)
    have hmem' : ∀ k ∈ rest, k < tokens.length := fun k hk => hmem k (List.mem_cons_of_mem p hk)
    rw [goScanAuxC, goScanAux, getTokenTypeC, if_pos (by rw [hlen]; exact hp)]
    simp only [Option.some_bind]
    by_cases hc3 : type = .Street ∧ ctx.tokenTypes.getD p .Count = .Count ∧ syn = none
    · rw [if_pos hc3, getTokenC, if_pos hp]
      simp only [Option.map_some', Option.some_bind]
      by_cases hsyno : g.isStreetSynonym (tokens.getD p "") = true
      · have hc4 : type = GeoType.Street ∧ ctx.tokenTypes.getD p GeoType.Count = GeoType.Count ∧
            syn = none ∧ g.isStreetSynonym (tokens.getD p "") = true :=
          ⟨hc3.1, hc3.2.1, hc3.2.2, hsyno⟩
        rw [if_pos hsyno,
          scopedMarkC_eq tokens ctx .Street p (p + 1) (Nat.le_succ p) hp,
          if_pos hc4]
        simp only [Option.map_some', Option.some_bind]
        simp only [if_neg (not_not_intro hc3.2.1)]
        exact ih _ _ _ _ _ hmem' (by rw [markRange_length]; exact hlen)
      · have hc4n : ¬(type = GeoType.Street ∧ ctx.tokenTypes.getD p GeoType.Count = GeoType.Count ∧
            syn = none ∧ g.isStreetSynonym (tokens.getD p "") = true) :=
          fun hc => hsyno hc.2.2.2
        rw [if_neg hsyno, if_neg hc4n]
        simp only [Option.some_bind]
        simp only [if_neg (not_not_intro hc3.2.1)]
        exact ih _ _ _ _ _ hmem' hlen
    · have hc4n : ¬(type = GeoType.Street ∧ ctx.tokenTypes.getD p GeoType.Count = GeoType.Count ∧
          syn = none ∧ g.isStreetSynonym (tokens.getD p "") = true) :=
        fun hc => hc3 ⟨hc.1, hc.2.1, hc.2.2.1⟩
      rw [if_neg hc3]
      simp only [Option.some_bind]
      rw [if_neg Bool.false_ne_true, if_neg hc4n]
      simp only [Option.some_bind]
      by_cases htc : ctx.tokenTypes.getD p .Count = .Count
      · simp only [if_neg (not_not_intro htc)]
        exact ih _ _ _ _ _ hmem' hlen
      · simp only [if_pos htc]
        exact ih _ _ _ _ _ hmem' hlen

theorem goScanC_eq (g : Geo) (tokens : List String) (type : GeoType) (ctx : Ctx)
    (hlen : ctx.tokenTypes.length = tokens.length) :
    goScanC g tokens type ctx = some (goScan g tokens type ctx) := by
  rw [goScanC, goScan]
  exact goScanAuxC_eq g tokens type (List.range tokens.length) ctx none 0 [] []
    (fun k hk => List.mem_range.mp hk) hlen

theorem fillRegularLayerC_eq (g : Geo) (layers : List Layer) (type : GeoType)
    (subquery : List String) :
    fillRegularLayerC g layers type subquery
      = some (fillRegularLayer g layers type subquery) := by
  rw [fillRegularLayerC, fillRegularLayer]
  have key : ∀ (L : List Nat) (acc : List Nat),
      L.foldl
        (fun acc? d => acc?.bind fun acc =>
          if docMatches subquery (getDoc g d) then
            if (getDoc g d).type = type then
              if layers.isEmpty then some (acc ++ [d])
              else (hasParentC g layers (getDoc g d)).map fun b => if b then acc ++ [d] else acc
            else some acc
          else some acc)
        (some acc)
        = some (acc ++ L.filter fun d =>
            docMatches subquery (getDoc g d) ∧ (getDoc g d).type = type ∧
              (layers.isEmpty ∨ hasParent g layers (getDoc g d))) := by
    intro L
    induction L with
    | nil => intro acc; simp
    | cons d L ih =>
      intro acc
      simp only [List.foldl_cons, Option.some_bind]
      have hstep : (if docMatches subquery (getDoc g d) then
            if (getDoc g d).type = type then
              if layers.isEmpty then some (acc ++ [d])
              else (hasParentC g layers (getDoc g d)).map fun b => if b then acc ++ [d] else acc
            else some acc
          else some acc)
          = some (if (docMatches subquery (getDoc g d) = true ∧ (getDoc g d).type = type ∧
              (layers.isEmpty = true ∨ hasParent g layers (getDoc g d) = true))
            then acc ++ [d] else acc) := by
        by_cases h1 : docMatches subquery (getDoc g d) = true
        · rw [if_pos h1]
          by_cases h2 : (getDoc g d).type = type
          · rw [if_pos h2]
            by_cases h3 : layers.isEmpty = true
            · rw [if_pos h3, if_pos ⟨h1, h2, Or.inl h3⟩]
            · rw [if_neg h3, hasParentC, if_neg h3]
              simp only [Option.map_some']
              by_cases h4 : hasParent g layers (getDoc g d) = true
              · rw [if_pos h4, if_pos ⟨h1, h2, Or.inr h4⟩]
              · rw [if_neg h4,
                  if_neg (by rintro ⟨_, _, h3' | h4'⟩; exacts [h3 h3', h4 h4'])]
          · rw [if_neg h2, if_neg (fun hc => h2 hc.2.1)]
        · rw [if_neg h1, if_neg (fun hc => h1 hc.1)]
      rw [hstep]
      by_cases hp : docMatches subquery (getDoc g d) = true ∧ (getDoc g d).type = type ∧
          (layers.isEmpty = true ∨ hasParent g layers (getDoc g d) = true)
      · rw [if_pos hp, ih (acc ++ [d]), List.filter_cons, decide_eq_true hp, if_pos rfl]
        simp
      · rw [if_neg hp, ih acc, List.filter_cons, decide_eq_false hp,
          if_neg Bool.false_ne_true]
  rw [key (List.range g.docs.length) []]
  simp

theorem goJ2C_eq (g : Geo) (tokens : List String) (recur : Ctx → GeoType → Ctx)
    (recurC : Ctx → GeoType → Option Ctx) (type : GeoType) (entries : List Nat)
    (scanned : ScanResult)
    (hrecC : ∀ c t, c.tokenTypes.length = tokens.length → recurC c t = some (recur c t))
    (htype : type ≠ .Count)
    (hslen : scanned.ctx.tokenTypes.length = tokens.length)
    (hsynb : ∀ p, scanned.syn = some p → p < tokens.length) :
    goJ2C g tokens recurC type entries scanned
      = some (goJ2 g tokens recur type entries scanned) := by
  rw [goJ2C, goJ2]
  set ctx2 := entries.foldl
    (fun c docId =>
      addResult c (getDoc g docId).osmId scanned.certainty type
        scanned.tokenIds scanned.allTypes)
    scanned.ctx with hctx2
  rw [nextTypeC, if_neg htype]
  simp only [Option.some_bind]
  have hl3 : ({ ctx2 with layers := ctx2.layers ++ [⟨type, entries⟩] } : Ctx).tokenTypes.length
      = tokens.length := by
    show ctx2.tokenTypes.length = tokens.length
    rw [hctx2,
      (foldAddResult_fields g scanned.certainty type scanned.tokenIds scanned.allTypes
        entries scanned.ctx).1,
      hslen]
  rw [hrecC _ (nextType type) hl3]
  simp only [Option.some_bind]
  cases hsyn : scanned.syn with
  | none => rfl
  | some p =>
    exact loopMarkC_eq tokens .Count p (p + 1) _ (hsynb p hsyn)

theorem goJcoreC_eq (g : Geo) (tokens : List String) (recur : Ctx → GeoType → Ctx)
    (recurC : Ctx → GeoType → Option Ctx) (type : GeoType) (i j : Nat)
    (filled : List Nat × Ctx)
    (hrecC : ∀ c t, c.tokenTypes.length = tokens.length → recurC c t = some (recur c t))
    (htype : type ≠ .Count)
    (hij : i ≤ j) (hjN : j < tokens.length)
    (hflen : filled.2.tokenTypes.length = tokens.length) :
    goJcoreC g tokens recurC type i j filled
      = some (goJcore g tokens recur type i j filled) := by
  rw [goJcoreC, goJcore,
    scopedMarkC_eq tokens filled.2 type i (j + 1) (by omega) hjN]
  simp only [Option.some_bind]
  have hm : (markRange filled.2 type i (j + 1)).tokenTypes.length = tokens.length := by
    rw [markRange_length, hflen]
  rw [goScanC_eq g tokens type _ hm]
  simp only [Option.some_bind]
  have hsl : (goScan g tokens type
      (markRange filled.2 type i (j + 1))).ctx.tokenTypes.length = tokens.length := by
    rw [goScan_ctx_length, hm]
  have hsb : ∀ p, (goScan g tokens type (markRange filled.2 type i (j + 1))).syn = some p →
      p < tokens.length := by
    intro p hp
    rcases goScan_ctx_cases g tokens type (markRange filled.2 type i (j + 1)) with
      ⟨_, hn2⟩ | ⟨q, hq, _, _, hs⟩
    · rw [hp] at hn2
      exact absurd hn2 (by simp)
    · rw [hp] at hs
      injection hs with h
      exact h ▸ hq
  rw [goJ2C_eq g tokens recur recurC type filled.1 _ hrecC htype hsl hsb]
  simp only [Option.some_bind]
  exact loopMarkC_eq tokens .Count i (j + 1) _ hjN

theorem goJC_eq (g : Geo) (tokens : List String) (recur : Ctx → GeoType → Ctx)
    (recurC : Ctx → GeoType → Option Ctx) (type : GeoType) (i : Nat)
    (hrecC : ∀ c t, c.tokenTypes.length = tokens.length → recurC c t = some (recur c t))
    (hrecl : ∀ c t, (recur c t).tokenTypes.length = c.tokenTypes.length)
    (htype : type ≠ .Count) :
    ∀ (k j : Nat) (ctx : Ctx), i ≤ j → ctx.tokenTypes.length = tokens.length →
      goJC g tokens recurC type i k j ctx = some (goJ g tokens recur type i k j ctx) := by
  intro k
  induction k with
  | zero => intro j ctx _ _; rfl
  | succ k ih =>
    intro j ctx hij hlen
    rw [goJC, goJ]
    by_cases h1 : j < tokens.length
    · rw [if_pos h1, if_pos h1, isTokenUsedC, if_pos h1]
      simp only [Option.some_bind]
      by_cases h2 : isTokenUsed ctx j = true
      · rw [if_pos h2, if_pos h2]
      · rw [if_neg h2, if_neg h2, getTokenC, if_pos h1]
        simp only [Option.some_bind]
        have hcont : ∀ filled : List Nat × Ctx,
            filled.2.tokenTypes.length = tokens.length →
            (if filled.1.isEmpty then goJC g tokens recurC type i k (j + 1) filled.2
              else (goJcoreC g tokens recurC type i j filled).bind fun c7 =>
                goJC g tokens recurC type i k (j + 1) c7)
            = some (if filled.1.isEmpty then goJ g tokens recur type i k (j + 1) filled.2
                else goJ g tokens recur type i k (j + 1)
                  (goJcore g tokens recur type i j filled)) := by
          intro filled hflen
          by_cases h3 : filled.1.isEmpty = true
          · rw [if_pos h3, if_pos h3]
            exact ih (j + 1) filled.2 (by omega) hflen
          · rw [if_neg h3, if_neg h3,
              goJcoreC_eq g tokens recur recurC type i j filled hrecC htype hij h1 hflen]
            simp only [Option.some_bind]
            exact ih (j + 1) _ (by omega)
              (by rw [goJcore_length g tokens recur type i j filled hrecl, hflen])
        by_cases hb : type = .Building
        · rw [if_pos hb, if_pos hb]
          simp only [Option.some_bind]
          exact hcont _ (by rw [(fillBuildingsLayer_fields ..).1]; exact hlen)
        · rw [if_neg hb, if_neg hb, fillRegularLayerC_eq]
          simp only [Option.map_some', Option.some_bind]
          exact hcont
            (fillRegularLayer g ctx.layers type ((tokens.drop i).take (j + 1 - i)), ctx) hlen
    · rw [if_neg h1, if_neg h1]

theorem goC_eq (g : Geo) (tokens : List String) :
    ∀ (fuel : Nat) (ctx : Ctx) (type : GeoType), ctx.tokenTypes.length = tokens.length →
      goC g tokens fuel ctx type = some (go g tokens fuel ctx type) := by
  intro fuel
  induction fuel with
  | zero => intro ctx type _; rfl
  | succ fuel ih =>
    intro ctx type hlen
    rw [goC, go]
    by_cases h1 : tokens.length = 0
    · rw [if_pos h1, if_pos h1]
    · rw [if_neg h1, if_neg h1]
      by_cases h2 : allTokensUsed tokens ctx = true
      · rw [if_pos h2, if_pos h2]
      · rw [if_neg h2, if_neg h2]
        by_cases h3 : type = .Count
        · rw [if_pos h3, if_pos h3]
        · rw [if_neg h3, if_neg h3]
          have hrecl : ∀ c t, (go g tokens fuel c t).tokenTypes.length = c.tokenTypes.length :=
            fun c t => go_length g tokens fuel c t
          have hrecC : ∀ c t, c.tokenTypes.length = tokens.length →
              goC g tokens fuel c t = some (go g tokens fuel c t) :=
            fun c t hc => ih c t hc
          have hfold : ∀ (L : List Nat) (c : Ctx), c.tokenTypes.length = tokens.length →
              (L.foldl
                (fun c? i => c?.bind fun c =>
                  goJC g tokens (fun c2 t2 => goC g tokens fuel c2 t2) type i
                    (tokens.length - i) i c)
                (some c))
                = some (L.foldl
                  (fun c i => goJ g tokens (fun c2 t2 => go g tokens fuel c2 t2) type i
                    (tokens.length - i) i c)
                  c) ∧
              (L.foldl
                  (fun c i => goJ g tokens (fun c2 t2 => go g tokens fuel c2 t2) type i
                    (tokens.length - i) i c)
                  c).tokenTypes.length = tokens.length := by
            intro L
            induction L with
            | nil => intro c hc; exact ⟨rfl, hc⟩
            | cons a L ihL =>
              intro c hc
              simp only [List.foldl_cons, Option.some_bind]
              rw [goJC_eq g tokens (fun c2 t2 => go g tokens fuel c2 t2)
                (fun c2 t2 => goC g tokens fuel c2 t2) type a hrecC hrecl h3
                (tokens.length - a) a c (le_refl a) hc]
              have hc' : (goJ g tokens (fun c2 t2 => go g tokens fuel c2 t2) type a
                  (tokens.length - a) a c).tokenTypes.length = tokens.length := by
                rw [goJ_length g tokens _ type a hrecl]
                exact hc
              exact ihL (goJ g tokens (fun c2 t2 => go g tokens fuel c2 t2) type a
                (tokens.length - a) a c) hc'
          obtain ⟨hf1, hf2⟩ := hfold (List.range tokens.length) ctx hlen
          rw [hf1]
          simp only [Option.some_bind]
          rw [nextTypeC, if_neg h3]
          simp only [Option.some_bind]
          exact ih _ (nextType type) hf2

/-- C9: every `CHECK` assertion reached while processing a query holds: the
checked interpreter, which returns `none` whenever an assertion's condition
fails, always succeeds and computes the same results as the pure model, for
every environment, query and initial result vector. -/
theorem geocoder_C9 (g : Geo) (query : String) (results0 : List Result) :
    processQueryC g query results0 = some (processQuery g query results0) := by
  rw [processQueryC,
    goC_eq g (g.tokenize query) 9 (initCtx (g.tokenize query)) .Country
      (by rw [initCtx]; exact List.length_replicate ..),
    Option.map_some']
  rfl
